import Mathlib

/-!
# fuzzydevice

A shallow embedding of `fuzzydevice.c`: the random capability generator
`init_random_device` and the random event-stream generator `send_events`.

* `random()` is a stream `random : Nat → Nat` of draws together with the index
  of the next draw; every call reads one draw and advances the index.
* `clock_gettime(CLOCK_MONOTONIC, _)` is a stream `clock : Nat → timespec` of
  readings together with the index of the next reading.
* `libevdev_event_type_get_max` is a table `get_max : Nat → Option Nat`, a
  parameter of the development: `none` stands for the C result `-1`.
* Undefined behaviour of the C program (division by zero, a store past the end
  of the scratch array) and a loop that runs out of fuel are the result `none`.
-/

namespace FuzzyDevice

/-! ## Constants of `linux/input.h` -/

/-- Modelled from the spec: the synchronization event type. The constant comes
from `linux/input.h`, which is not part of the repository; the value is the one
of the Linux input ABI. -/
def EV_SYN : Nat := 0x00

/-- Modelled from the spec: the key event type, printed `0001` in a trace; a
constant of `linux/input.h`. -/
def EV_KEY : Nat := 0x01

/-- Modelled from the spec: the range-valued (absolute-axis) event type, a
constant of `linux/input.h` with the value of the Linux input ABI. -/
def EV_ABS : Nat := 0x03

/-- Modelled from the spec: the switch-like event type, a constant of
`linux/input.h` with the value of the Linux input ABI. -/
def EV_SW : Nat := 0x05

/-- Modelled from the spec: the repeat event type, which the generator
excludes; a constant of `linux/input.h` with the value of the Linux input
ABI. -/
def EV_REP : Nat := 0x14

/-- Modelled from the spec: the largest event type of the legal type range, a
constant of `linux/input.h` with the value of the Linux input ABI. -/
def EV_MAX : Nat := 0x1f

/-- Modelled from the spec: the largest key code, used for the capacity of the
scratch buffer; a constant of `linux/input.h` with the value of the Linux
input ABI. -/
def KEY_MAX : Nat := 0x2ff

/-- Modelled from the spec: the code of the frame-terminating synchronization
event, a constant of `linux/input.h`. -/
def SYN_REPORT : Nat := 0

/-! ## The libevdev device -/

/-- The two fields of `struct input_absinfo` that the program sets. -/
structure input_absinfo where
  minimum : Int
  maximum : Int
deriving DecidableEq

/-- Modelled from the spec: `struct libevdev`, the Device Capability Set. The
library is not part of the repository; the model keeps the display name, the
set of enabled event types, the set of enabled (type, code) pairs and the range
attached to absolute-axis codes. -/
structure libevdev where
  name : String
  bits : List Nat
  code_bits : List (Nat × Nat)
  abs_info : List (Nat × input_absinfo)
deriving DecidableEq

/-- Modelled from the spec: `libevdev_new`, a fresh device. Only the
synchronization type is enabled, no (type, code) pair is registered. -/
def libevdev_new : libevdev :=
  { name := "", bits := [EV_SYN], code_bits := [], abs_info := [] }

/-- Modelled from the spec: `libevdev_set_name`. -/
def libevdev_set_name (d : libevdev) (name : String) : libevdev :=
  { d with name := name }

/-- Modelled from the spec: `libevdev_has_event_type`. The synchronization type
is always present; any other type is present when it is in range and its bit
is set. -/
def libevdev_has_event_type (d : libevdev) (type : Nat) : Bool :=
  decide (type = EV_SYN) || (decide (type ≤ EV_MAX) && decide (type ∈ d.bits))

/-- Modelled from the spec: `libevdev_has_event_code`. False when the type is
not enabled; true for every code of the synchronization type; otherwise true
when the code is legal for the type (at most its maximum) and its bit is set. -/
def libevdev_has_event_code (get_max : Nat → Option Nat) (d : libevdev)
    (type code : Nat) : Bool :=
  if libevdev_has_event_type d type = false then false
  else if type = EV_SYN then true
  else
    match get_max type with
    | none => false
    | some max => decide (code ≤ max) && decide ((type, code) ∈ d.code_bits)

/-- Modelled from the spec: `libevdev_enable_event_type`. It fails (`none`) for
a type out of range and for a type without a defined maximum; a type that is
already enabled is left alone. -/
def libevdev_enable_event_type (get_max : Nat → Option Nat) (d : libevdev)
    (type : Nat) : Option libevdev :=
  if EV_MAX < type then none
  else if libevdev_has_event_type d type = true then some d
  else
    match get_max type with
    | none => none
    | some _ => some { d with bits := type :: d.bits }

/-- Modelled from the spec: `libevdev_enable_event_code`, registration of a
(type, code) pair; the result is the device after the call (the program drops
the returned status). The type is enabled first; if that fails the device is
left as it was. For the synchronization type nothing more is done. The code is
refused for an absolute-axis or repeat type without data, for any other type
with data, and for a code above the type's maximum. Otherwise the code's bit
is set (registration is idempotent) and an absolute-axis code stores the range
passed in `data`. -/
def libevdev_enable_event_code (get_max : Nat → Option Nat) (d : libevdev)
    (type code : Nat) (data : Option input_absinfo) : libevdev :=
  match libevdev_enable_event_type get_max d type with
  | none => d
  | some d1 =>
    if type = EV_SYN then d1
    else if (type = EV_ABS ∨ type = EV_REP) ∧ data = none then d1
    else if ¬ (type = EV_ABS ∨ type = EV_REP) ∧ data ≠ none then d1
    else
      match get_max type with
      | none => d1
      | some max =>
        if max < code then d1
        else
          { d1 with
            code_bits :=
              if (type, code) ∈ d1.code_bits then d1.code_bits
              else (type, code) :: d1.code_bits
            abs_info :=
              match data with
              | some a =>
                if type = EV_ABS then
                  (code, a) :: d1.abs_info.filter (fun p => p.1 ≠ code)
                else d1.abs_info
              | none => d1.abs_info }

/-- The capabilities enabled on a device: the distinct (type, code) pairs with
`type ≥ 1` for which `libevdev_has_event_code` answers true. -/
def enabled_capabilities (get_max : Nat → Option Nat) (d : libevdev) :
    List (Nat × Nat) :=
  d.code_bits.dedup.filter
    (fun p => decide (1 ≤ p.1) && libevdev_has_event_code get_max d p.1 p.2)

/-! ## `init_random_device` -/

/-- The local `abs` of `init_random_device`: minimum 0, maximum 100. -/
def abs : input_absinfo := { minimum := 0, maximum := 100 }

/-- The state `init_random_device` works on: the device under construction,
the arguments of every `libevdev_enable_event_code` call made so far (oldest
first) and the index of the next random draw. -/
structure init_state where
  d : libevdev
  calls : List (Nat × Nat × Option input_absinfo)
  pos : Nat
deriving DecidableEq

/-- The loop `while (nbits) { ... }` of `init_random_device`, lines 48-65. Every
iteration costs one unit of `fuel`; `none` when the fuel runs out before
`nbits` reaches zero. -/
def init_random_device_loop (get_max : Nat → Option Nat) (random : Nat → Nat) :
    Nat → Nat → init_state → Option init_state
  | _, 0, s => some s
  | 0, _ + 1, _ => none
  | fuel + 1, nbits + 1, s =>
    let type := random s.pos % EV_MAX + 1
    if type = EV_REP then
      init_random_device_loop get_max random fuel (nbits + 1) { s with pos := s.pos + 1 }
    else
      match get_max type with
      | none =>
        init_random_device_loop get_max random fuel (nbits + 1) { s with pos := s.pos + 1 }
      | some max =>
        let code := random (s.pos + 1) % (max + 1)
        let data := if type = EV_ABS then some abs else none
        init_random_device_loop get_max random fuel nbits
          { d := libevdev_enable_event_code get_max s.d type code data
            calls := s.calls ++ [(type, code, data)]
            pos := s.pos + 2 }

/-- The function `init_random_device`, lines 36-68, started at draw `pos`. -/
def init_random_device (get_max : Nat → Option Nat) (name : String)
    (random : Nat → Nat) (pos fuel : Nat) : Option init_state :=
  let d := libevdev_new
  let nbits := random pos % 64 + 1
  let d := libevdev_set_name d name
  init_random_device_loop get_max random fuel nbits { d := d, calls := [], pos := pos + 1 }

/-! ## The sink, the clock and the trace -/

/-- One event as handed to the sink: `type`, `code` and the `int` value. -/
structure input_event where
  type : Nat
  code : Nat
  value : Int
deriving DecidableEq

/-- Modelled from the spec: `struct libevdev_uinput`, the Virtual Device Sink.
`rc k` is what the k-th call of `write_event` returns (0 on success, a
negative errno on failure); `calls` lists every `write_event` call made so
far, oldest first, with the result it returned. -/
structure libevdev_uinput where
  rc : Nat → Int
  calls : List (input_event × Int)

/-- Modelled from the spec: `libevdev_uinput_write_event`. The call is recorded
and its result returned to the caller. -/
def libevdev_uinput_write_event (uinput : libevdev_uinput) (type code : Nat)
    (value : Int) : libevdev_uinput × Int :=
  let r := uinput.rc uinput.calls.length
  ({ uinput with calls := uinput.calls ++ [({ type := type, code := code, value := value }, r)] }, r)

/-- The two fields of `struct timespec`. -/
structure timespec where
  tv_sec : Nat
  tv_nsec : Nat
deriving DecidableEq

/-- The value `tp.tv_sec * 1E6 + tp.tv_nsec/1000` of line 125: the reading in
microseconds. The C expression is evaluated in `double`, which is exact as
long as the result is below 2^53. -/
def timespec_usec (tp : timespec) : Int :=
  (tp.tv_sec : Int) * 1000000 + ((tp.tv_nsec / 1000 : Nat) : Int)

/-- The arguments of one pair of `printf` calls of `send_events`: an event line
(lines 147-154) or a synchronization line (lines 158-163). -/
inductive trace_line where
  | event (tv_sec usec type code : Nat) (value : Int)
  | sync (tv_sec usec : Nat) (dt : Int)
deriving DecidableEq

/-- Left padding to a minimum width. -/
def pad_left (c : Char) (width : Nat) (s : String) : String :=
  String.mk (List.replicate (width - s.length) c) ++ s

/-- The conversion `%lu`. -/
def fmt_lu (n : Nat) : String := Nat.repr n

/-- The conversion `%06lu`. -/
def fmt_06lu (n : Nat) : String := pad_left '0' 6 (Nat.repr n)

/-- The conversion `%04x`. -/
def fmt_04x (n : Nat) : String := pad_left '0' 4 (String.mk (Nat.toDigits 16 n))

/-- The conversion `%d`. -/
def fmt_d (v : Int) : String :=
  if v < 0 then "-" ++ Nat.repr v.natAbs else Nat.repr v.natAbs

/-- The conversion `%04d`: the sign counts towards the width. -/
def fmt_04d (v : Int) : String :=
  if v < 0 then "-" ++ pad_left '0' 3 (Nat.repr v.natAbs)
  else pad_left '0' 4 (Nat.repr v.natAbs)

/-- The conversion `%+ld`. -/
def fmt_plus_ld (v : Int) : String :=
  if v < 0 then "-" ++ Nat.repr v.natAbs else "+" ++ Nat.repr v.natAbs

/-- The conversion `%s`; glibc prints a null pointer as `(null)`. -/
def fmt_s (s : Option String) : String := s.getD "(null)"

/-- The conversion `%-20s`. -/
def fmt_left20 (s : Option String) : String :=
  fmt_s s ++ String.mk (List.replicate (20 - (fmt_s s).length) ' ')

/-- The text the two `printf` calls of one trace line write. `type_name` and
`code_name` stand for `libevdev_event_type_get_name` and
`libevdev_event_code_get_name`, `none` for a null pointer. -/
def render (type_name : Nat → Option String) (code_name : Nat → Nat → Option String) :
    trace_line → String
  | .event tv_sec usec type code value =>
    "E: " ++ fmt_lu tv_sec ++ "." ++ fmt_06lu usec ++ " " ++ fmt_04x type ++ " "
      ++ fmt_04x code ++ " " ++ fmt_04d value ++ "    "
      ++ "# " ++ fmt_s (type_name type) ++ " / " ++ fmt_left20 (code_name type code)
      ++ " " ++ fmt_d value ++ "\n"
  | .sync tv_sec usec dt =>
    "E: " ++ fmt_lu tv_sec ++ "." ++ fmt_06lu usec ++ " " ++ fmt_04x EV_SYN ++ " "
      ++ fmt_04x SYN_REPORT ++ " " ++ fmt_04d 0 ++ "    "
      ++ "# ------------ " ++ fmt_s (code_name EV_SYN SYN_REPORT) ++ " (" ++ fmt_d 0
      ++ ") ---------- " ++ fmt_plus_ld dt ++ "ms\n"

/-- The bytes written to standard output for a list of trace lines. -/
def render_trace (type_name : Nat → Option String) (code_name : Nat → Nat → Option String)
    (out : List trace_line) : String :=
  String.join (out.map (render type_name code_name))

/-! ## `send_events` -/

/-- The inner loop of lines 106-113 for one type: the codes `0 .. max` the
device has, in ascending order, each paired with the type. -/
def send_events_codes (get_max : Nat → Option Nat) (d : libevdev) (type max : Nat) :
    List (Nat × Nat) :=
  ((List.range (max + 1)).filter
    (fun code => libevdev_has_event_code get_max d type code)).map (fun code => (type, code))

/-- The body of the outer loop of lines 96-114 for one type: nothing for a type
the device does not have or a type without a maximum. -/
def send_events_type (get_max : Nat → Option Nat) (d : libevdev) (type : Nat) :
    List (Nat × Nat) :=
  if libevdev_has_event_type d type = false then []
  else
    match get_max type with
    | none => []
    | some max => send_events_codes get_max d type max

/-- The flattened list `bits[0 .. nbits)` built by lines 96-114, for
`type = 1 .. EV_MAX`. -/
def send_events_bits (get_max : Nat → Option Nat) (d : libevdev) : List (Nat × Nat) :=
  (List.range' 1 EV_MAX).flatMap (send_events_type get_max d)

/-- The state `send_events` works on: the index of the next random draw, the
index of the next clock reading, the sink and the trace lines printed so
far. -/
structure send_state where
  pos : Nat
  clk : Nat
  uinput : libevdev_uinput
  out : List trace_line

/-- The event chosen by lines 132-144 from the draws `pos` and `pos + 1`: the
index `random() % nbits` into the flattened list, then the value,
`random() % 2` for `EV_KEY` and `EV_SW` and `random() % 50` otherwise. -/
def send_events_pick (bits : List (Nat × Nat)) (h : bits.length ≠ 0) (random : Nat → Nat)
    (pos : Nat) : input_event :=
  let idx := random pos % bits.length
  let type := (bits.get ⟨idx, Nat.mod_lt _ (Nat.pos_of_ne_zero h)⟩).1
  let code := (bits.get ⟨idx, Nat.mod_lt _ (Nat.pos_of_ne_zero h)⟩).2
  let value : Int :=
    if type = EV_KEY ∨ type = EV_SW then ((random (pos + 1) % 2 : Nat) : Int)
    else ((random (pos + 1) % 50 : Nat) : Int)
  { type := type, code := code, value := value }

/-- The arguments of the two `printf` calls of lines 147-154 for an event of a
frame stamped `tp`. -/
def event_line (tp : timespec) (e : input_event) : trace_line :=
  trace_line.event tp.tv_sec (tp.tv_nsec / 1000) e.type e.code e.value

/-- The loop `while (nevents--) { ... }` of lines 128-156, for a frame stamped
`tp`. `none` when `random() % nbits` divides by zero. The result of
`libevdev_uinput_write_event` is dropped, as in the source. -/
def send_events_frame (bits : List (Nat × Nat)) (random : Nat → Nat) (tp : timespec) :
    Nat → send_state → Option send_state
  | 0, s => some s
  | nevents + 1, s =>
    if h : bits.length = 0 then none
    else
      let e := send_events_pick bits h random s.pos
      send_events_frame bits random tp nevents
        { pos := s.pos + 2
          clk := s.clk
          uinput := (libevdev_uinput_write_event s.uinput e.type e.code e.value).1
          out := s.out ++ [event_line tp e] }

/-- The loop `while (nframes--) { ... }` of lines 118-167. `tp_last` is the
reading taken at line 116; the loop never assigns it. `dt` is the difference of
the two readings in microseconds; the C program stores it in an
`unsigned long` and prints it with `%+ld`, which gives the same number while
it is below 2^63 in absolute value. `drain_events` does not touch the state
modelled here. -/
def send_events_frames (bits : List (Nat × Nat)) (random : Nat → Nat)
    (clock : Nat → timespec) (tp_last : timespec) : Nat → send_state → Option send_state
  | 0, s => some s
  | nframes + 1, s =>
    let nevents := random s.pos % 12
    let tp := clock s.clk
    let dt : Int := timespec_usec tp - timespec_usec tp_last
    match send_events_frame bits random tp nevents
        { s with pos := s.pos + 1, clk := s.clk + 1 } with
    | none => none
    | some s1 =>
      send_events_frames bits random clock tp_last nframes
        { pos := s1.pos
          clk := s1.clk
          uinput := (libevdev_uinput_write_event s1.uinput EV_SYN SYN_REPORT 0).1
          out := s1.out ++ [trace_line.sync tp.tv_sec (tp.tv_nsec / 1000) dt] }

/-- The function `send_events`, lines 82-168, started at draw `pos` with an
empty trace. `none` when the flattened list does not fit the scratch array
`bits[EV_MAX * KEY_MAX]` or when an index is drawn from an empty list. -/
def send_events (get_max : Nat → Option Nat) (d : libevdev) (uinput : libevdev_uinput)
    (random : Nat → Nat) (clock : Nat → timespec) (pos : Nat) : Option send_state :=
  let nframes := random pos % 200
  let bits := send_events_bits get_max d
  if EV_MAX * KEY_MAX < bits.length then none
  else
    let tp_last := clock 0
    send_events_frames bits random clock tp_last nframes
      { pos := pos + 1, clk := 1, uinput := uinput, out := [] }

/-- The events handed to the sink, oldest first. -/
def libevdev_uinput.events (uinput : libevdev_uinput) : List input_event :=
  uinput.calls.map Prod.fst

/-- The part of `test_one_device` that draws random numbers, lines 194 and
225: the device is generated, then the event stream is sent through it. -/
def test_one_device (get_max : Nat → Option Nat) (name : String) (uinput : libevdev_uinput)
    (random : Nat → Nat) (clock : Nat → timespec) (pos fuel : Nat) : Option send_state :=
  match init_random_device get_max name random pos fuel with
  | none => none
  | some s => send_events get_max s.d uinput random clock s.pos

/-! ## Concrete inputs and the vocabulary of the statements -/

/-- A table of maxima in the shape `libevdev_event_type_get_max` has on Linux:
defined for the types that carry codes, undefined for all others. It is used
for concrete runs only. -/
def linux_max : Nat → Option Nat
  | 0x00 => some 0x0f
  | 0x01 => some 0x2ff
  | 0x02 => some 0x0f
  | 0x03 => some 0x3f
  | 0x04 => some 0x07
  | 0x05 => some 0x10
  | 0x11 => some 0x0f
  | 0x12 => some 0x07
  | 0x14 => some 0x01
  | 0x15 => some 0x7f
  | _ => none

/-- The random source that always returns `v`. -/
def const_random (v : Nat) : Nat → Nat := fun _ => v

/-- A random source that replays a finite list of draws and then returns 0. -/
def replay (draws : List Nat) : Nat → Nat := fun i => draws.getD i 0

/-- A sink on which every write succeeds. -/
def good_sink : libevdev_uinput := { rc := fun _ => 0, calls := [] }

/-- A clock that advances one second per reading, starting at 10 s. -/
def second_clock : Nat → timespec := fun k => { tv_sec := 10 + k, tv_nsec := 0 }

/-- Symbolic type names for concrete runs. -/
def some_type_name : Nat → Option String
  | 0 => some "EV_SYN"
  | 1 => some "EV_KEY"
  | 3 => some "EV_ABS"
  | _ => none

/-- Symbolic code names for concrete runs. -/
def some_code_name : Nat → Nat → Option String
  | 0, 0 => some "SYN_REPORT"
  | 1, 1 => some "KEY_ESC"
  | 1, 5 => some "KEY_4"
  | 3, 7 => some "ABS_RUDDER"
  | _, _ => none

/-- A (type, code) pair is legal: the type is a selectable one (in range, not
the synchronization type, not the repeat type) with a defined maximum code and
the code does not exceed that maximum. -/
def legal_pair (get_max : Nat → Option Nat) (type code : Nat) : Prop :=
  1 ≤ type ∧ type ≤ EV_MAX ∧ type ≠ EV_SYN ∧ type ≠ EV_REP ∧
    ∃ max, get_max type = some max ∧ code ≤ max

/-- A device is well formed: no pair is registered twice, and every registered
pair has its type enabled, in `1 .. EV_MAX`, with a code within the maximum. -/
def well_formed (get_max : Nat → Option Nat) (d : libevdev) : Prop :=
  d.code_bits.Nodup ∧
    ∀ p ∈ d.code_bits, 1 ≤ p.1 ∧ p.1 ≤ EV_MAX ∧ p.1 ∈ d.bits ∧
      ∃ max, get_max p.1 = some max ∧ p.2 ≤ max

/-- The invariant of the generator loop, for a requested count `n0` and a
remaining count `n`. -/
def init_inv (get_max : Nat → Option Nat) (n0 : Nat) (s : init_state) (n : Nat) : Prop :=
  well_formed get_max s.d ∧ s.d.code_bits.length + n ≤ n0 ∧
    (n < n0 → 1 ≤ s.d.code_bits.length) ∧
    (∀ c ∈ s.calls, legal_pair get_max c.1 c.2.1) ∧
    (∀ t c, (t, c) ∈ s.d.code_bits ↔ ∃ data, (t, c, data) ∈ s.calls) ∧
    s.calls.length + n = n0

/-- The state returned by the worked generator run `demo_draws`: three
registrations were requested, (EV_KEY, 5) twice and (EV_ABS, 7) once. -/
def demo_init_state : init_state :=
  { d := { name := "fuzzy device 0", bits := [3, 1, 0], code_bits := [(3, 7), (1, 5)],
           abs_info := [(7, abs)] }
    calls := [(1, 5, none), (1, 5, none), (3, 7, some abs)]
    pos := 9 }

/-- The draws of the concrete generator run: count 3, then (EV_KEY, 5), the
repeat type (skipped), (EV_KEY, 5) again, a type without maximum (skipped)
and (EV_ABS, 7). -/
def demo_draws : List Nat := [2, 0, 5, 19, 0, 5, 30, 2, 7]

/-- The synchronization event `(EV_SYN, SYN_REPORT, 0)` of line 165. -/
def sync_event : input_event := { type := EV_SYN, code := SYN_REPORT, value := 0 }

/-- The arguments of the two `printf` calls of lines 158-163 for a frame
stamped `tp`. -/
def sync_line (tp : timespec) (dt : Int) : trace_line :=
  trace_line.sync tp.tv_sec (tp.tv_nsec / 1000) dt

/-- The events of one frame of `nevents` events whose first draw is `pos`:
the list the loop of lines 128-156 hands to the sink. -/
def frame_plan (bits : List (Nat × Nat)) (random : Nat → Nat) : Nat → Nat → List input_event
  | 0, _ => []
  | nevents + 1, pos =>
    if h : bits.length = 0 then []
    else send_events_pick bits h random pos :: frame_plan bits random nevents (pos + 2)

/-- The frames of a session of `nframes` frames whose first draw is `pos`. -/
def session_plan (bits : List (Nat × Nat)) (random : Nat → Nat) :
    Nat → Nat → List (List input_event)
  | 0, _ => []
  | nframes + 1, pos =>
    frame_plan bits random (random pos % 12) (pos + 1)
      :: session_plan bits random nframes (pos + 1 + 2 * (random pos % 12))

/-- The sink writes of a list of frames: every frame followed by one
synchronization event. -/
def plan_writes (frames : List (List input_event)) : List input_event :=
  frames.flatMap (fun f => f ++ [sync_event])

/-- The trace lines of a list of frames, the first of which reads the clock
at index `clk`; `dt` is measured from `tp_last`. -/
def plan_lines (clock : Nat → timespec) (tp_last : timespec) :
    Nat → List (List input_event) → List trace_line
  | _, [] => []
  | clk, f :: fs =>
    f.map (event_line (clock clk))
      ++ [sync_line (clock clk) (timespec_usec (clock clk) - timespec_usec tp_last)]
      ++ plan_lines clock tp_last (clk + 1) fs

/-- The strict lexicographic order on (type, code) pairs. -/
def bits_lt (p q : Nat × Nat) : Prop := p.1 < q.1 ∨ (p.1 = q.1 ∧ p.2 < q.2)

/-- The events a run handed to the sink: the events recorded by the final
sink after those the initial sink already held. -/
def written (uinput : libevdev_uinput) (r : send_state) : List input_event :=
  r.uinput.events.drop uinput.calls.length

/-- The state returned by the worked run `demo_send_draws`: two frames on the
device with capabilities (EV_KEY, 5) and (EV_ABS, 7), the first with two
events, the second empty. -/
def demo_send_state : send_state :=
  { pos := 7
    clk := 3
    uinput :=
      { rc := good_sink.rc
        calls := [({ type := 1, code := 5, value := 1 }, 0), ({ type := 3, code := 7, value := 37 }, 0),
          ({ type := 0, code := 0, value := 0 }, 0), ({ type := 0, code := 0, value := 0 }, 0)] }
    out := [trace_line.event 11 0 1 5 1, trace_line.event 11 0 3 7 37,
      trace_line.sync 11 0 1000000, trace_line.sync 12 0 2000000] }

/-- The draws of the concrete run: 2 frames; 2 events, index 0 with value
draw 1 and index 1 with value draw 37; then 0 events. -/
def demo_send_draws : List Nat := [2, 2, 0, 1, 1, 37, 0]

/-- The `dt` values printed by the synchronization lines of a trace. -/
def sync_dts : List trace_line → List Int
  | [] => []
  | trace_line.sync _ _ dt :: rest => dt :: sync_dts rest
  | trace_line.event _ _ _ _ _ :: rest => sync_dts rest

/-- A clock that reads 10 s twice (before the loop and in the first frame) and
then advances one second per reading. -/
def stall_clock : Nat → timespec := fun k => { tv_sec := 10 + (k - 1), tv_nsec := 0 }

/-- The draws of a run of three frames: one event (index 0, value draw 1) in
the first frame, none in the second and third. -/
def stall_draws : List Nat := [3, 1, 0, 1, 0, 0]

/-- A sink whose third write fails with `-EIO`. -/
def failing_sink : libevdev_uinput := { rc := fun k => if k = 2 then -5 else 0, calls := [] }

/-- The draws of a run of one frame with four events. -/
def failing_draws : List Nat := [1, 4, 0, 1, 1, 37, 0, 0, 1, 5]

/-- The state returned by the run on `failing_sink`. -/
def failing_send_state : send_state :=
  { pos := 10
    clk := 2
    uinput :=
      { rc := failing_sink.rc
        calls := [({ type := 1, code := 5, value := 1 }, 0), ({ type := 3, code := 7, value := 37 }, 0),
          ({ type := 1, code := 5, value := 0 }, -5), ({ type := 3, code := 7, value := 5 }, 0),
          ({ type := 0, code := 0, value := 0 }, 0)] }
    out := [trace_line.event 11 0 1 5 1, trace_line.event 11 0 3 7 37,
      trace_line.event 11 0 1 5 0, trace_line.event 11 0 3 7 5, trace_line.sync 11 0 1000000] }

/-- No write follows a failed write: a call that returned a negative result
is the last call. -/
def halts_on_failure (calls : List (input_event × Int)) : Prop :=
  ∀ k, k < calls.length → (calls.map Prod.snd).getD k 0 < 0 → calls.length = k + 1

/-- A clock that starts at 20.5 s and advances one second per reading. -/
def late_clock : Nat → timespec := fun k => { tv_sec := 20 + k, tv_nsec := 500000000 }

/-- The state the full pipeline returns on `second_clock`. -/
def pipeline_state : send_state := { demo_send_state with pos := 16 }

/-- The state the full pipeline returns on `late_clock`. -/
def late_pipeline_state : send_state :=
  { pipeline_state with
    out := [trace_line.event 21 500000 1 5 1, trace_line.event 21 500000 3 7 37,
      trace_line.sync 21 500000 1000000, trace_line.sync 22 500000 2000000] }

/-- A clock that agrees with `second_clock` on the first 200 readings. -/
def second_clock_200 : Nat → timespec :=
  fun k => if k < 200 then second_clock k else { tv_sec := 0, tv_nsec := 0 }

/-- Modelled from the spec: `libevdev_get_abs_info`, the range attached to an
absolute-axis code; nothing when the device does not have the code. -/
def libevdev_get_abs_info (get_max : Nat → Option Nat) (d : libevdev) (code : Nat) :
    Option input_absinfo :=
  if libevdev_has_event_code get_max d EV_ABS code = true then
    (d.abs_info.find? (fun p => decide (p.1 = code))).map Prod.snd
  else none

/-- The invariant of the generator loop about ranges: the device holds a range
for exactly the registered absolute-axis codes, always `abs`, and every
registration passed `abs` for an absolute-axis type and nothing otherwise. -/
def abs_inv (s : init_state) : Prop :=
  (∀ p ∈ s.d.abs_info, p.2 = abs ∧ (EV_ABS, p.1) ∈ s.d.code_bits) ∧
    (∀ c, (EV_ABS, c) ∈ s.d.code_bits → (c, abs) ∈ s.d.abs_info) ∧
    (∀ c ∈ s.calls, c.2.2 = if c.1 = EV_ABS then some abs else none)

/-- The (type, code, value) triple a trace line prints: the arguments of the
event line, and the constants `EV_SYN, SYN_REPORT, 0` of line 159 for a
synchronization line. -/
def line_triple : trace_line → Nat × Nat × Int
  | trace_line.event _ _ type code value => (type, code, value)
  | trace_line.sync _ _ _ => (EV_SYN, SYN_REPORT, 0)

/-- The (type, code, value) triple passed to `write_event`. -/
def event_triple (e : input_event) : Nat × Nat × Int := (e.type, e.code, e.value)

/-- The timestamp a trace line prints: seconds and microseconds. -/
def line_stamp : trace_line → Nat × Nat
  | trace_line.event tv_sec usec _ _ _ => (tv_sec, usec)
  | trace_line.sync tv_sec usec _ => (tv_sec, usec)

/-- The trace lines of a list of frames, frame by frame; the first frame reads
the clock at index `clk`. -/
def plan_groups (clock : Nat → timespec) (tp_last : timespec) :
    Nat → List (List input_event) → List (List trace_line)
  | _, [] => []
  | clk, f :: fs =>
    (f.map (event_line (clock clk))
      ++ [sync_line (clock clk) (timespec_usec (clock clk) - timespec_usec tp_last)])
      :: plan_groups clock tp_last (clk + 1) fs

/-- The draws of a run of two empty frames. -/
def empty_frames_draws : List Nat := [2, 0, 0]

/-- The value of a digit character, decimal or lower-case hexadecimal. -/
def digit_value (c : Char) : Nat :=
  if c.toNat ≤ 57 then c.toNat - 48 else c.toNat - 87

/-- The number a string of digits in base `base` denotes. -/
def parse_digits (base : Nat) (l : List Char) : Nat :=
  l.foldl (fun acc c => acc * base + digit_value c) 0

/-- The tuple read back from an event trace line: the fields before `#`,
seconds up to the dot, then the fixed-width microseconds, type, code and
value. -/
def parse_event_line (s : String) : Nat × Nat × Nat × Nat × Int :=
  let l0 := s.data.drop 3
  let l1 := (l0.dropWhile Char.isDigit).drop 1
  let l2 := (l1.drop 6).drop 1
  let l3 := (l2.drop 4).drop 1
  let l4 := (l3.drop 4).drop 1
  (parse_digits 10 (l0.takeWhile Char.isDigit), parse_digits 10 (l1.take 6),
    parse_digits 16 (l2.take 4), parse_digits 16 (l3.take 4),
    ((parse_digits 10 (l4.take 4) : Nat) : Int))

/-! ## Theorems -/

theorem enable_event_type_legal (get_max : Nat → Option Nat) (d : libevdev) (type max : Nat)
    (h1 : 1 ≤ type) (h2 : type ≤ EV_MAX) (hmax : get_max type = some max) :
    libevdev_enable_event_type get_max d type
      = some { d with bits := if type ∈ d.bits then d.bits else type :: d.bits } := by
  have h0 : type ≠ EV_SYN := by
    intro h
    rw [h] at h1
    exact absurd h1 (by decide)
  have h4 : ¬ EV_MAX < type := Nat.not_lt.mpr h2
  unfold libevdev_enable_event_type libevdev_has_event_type
  by_cases hin : type ∈ d.bits
  · simp [h4, h0, h2, hin]
  · simp [h4, h0, hin, hmax]

theorem enable_legal_bits (get_max : Nat → Option Nat) (d : libevdev) (type code max : Nat)
    (h1 : 1 ≤ type) (h2 : type ≤ EV_MAX) (h3 : type ≠ EV_REP)
    (hmax : get_max type = some max) (hcode : code ≤ max) :
    (libevdev_enable_event_code get_max d type code
        (if type = EV_ABS then some abs else none)).bits
      = (if type ∈ d.bits then d.bits else type :: d.bits) ∧
    (libevdev_enable_event_code get_max d type code
        (if type = EV_ABS then some abs else none)).code_bits
      = (if (type, code) ∈ d.code_bits then d.code_bits else (type, code) :: d.code_bits) := by
  have h0 : type ≠ EV_SYN := by
    intro h
    rw [h] at h1
    exact absurd h1 (by decide)
  have h5 : ¬ max < code := Nat.not_lt.mpr hcode
  unfold libevdev_enable_event_code
  rw [enable_event_type_legal get_max d type max h1 h2 hmax]
  by_cases habs : type = EV_ABS
  · subst habs
    simp [hmax, h0, h5]
  · simp [hmax, h0, h3, h5, habs]

theorem well_formed_new (get_max : Nat → Option Nat) (name : String) :
    well_formed get_max (libevdev_set_name libevdev_new name) := by
  constructor
  · exact List.nodup_nil
  · intro p hp
    exact absurd hp (List.not_mem_nil p)

theorem well_formed_enable (get_max : Nat → Option Nat) (d : libevdev) (type code max : Nat)
    (hd : well_formed get_max d)
    (h1 : 1 ≤ type) (h2 : type ≤ EV_MAX) (h3 : type ≠ EV_REP)
    (hmax : get_max type = some max) (hcode : code ≤ max) :
    well_formed get_max (libevdev_enable_event_code get_max d type code
        (if type = EV_ABS then some abs else none)) := by
  obtain ⟨hb, hc⟩ := enable_legal_bits get_max d type code max h1 h2 h3 hmax hcode
  have hsub : ∀ t, t ∈ d.bits → t ∈ (if type ∈ d.bits then d.bits else type :: d.bits) := by
    intro t ht
    split
    · exact ht
    · exact List.mem_cons_of_mem _ ht
  have hself : type ∈ (if type ∈ d.bits then d.bits else type :: d.bits) := by
    split
    · assumption
    · exact List.mem_cons_self _ _
  unfold well_formed
  rw [hb, hc]
  by_cases hin : (type, code) ∈ d.code_bits
  · rw [if_pos hin]
    refine ⟨hd.1, ?_⟩
    intro p hp
    obtain ⟨a, b, c, e⟩ := hd.2 p hp
    exact ⟨a, b, hsub _ c, e⟩
  · rw [if_neg hin]
    refine ⟨List.nodup_cons.mpr ⟨hin, hd.1⟩, ?_⟩
    intro p hp
    rcases List.mem_cons.mp hp with rfl | hp
    · exact ⟨h1, h2, hself, max, hmax, hcode⟩
    · obtain ⟨a, b, c, e⟩ := hd.2 p hp
      exact ⟨a, b, hsub _ c, e⟩

theorem enabled_capabilities_of_well_formed (get_max : Nat → Option Nat) (d : libevdev)
    (hd : well_formed get_max d) : enabled_capabilities get_max d = d.code_bits := by
  unfold enabled_capabilities
  rw [List.Nodup.dedup hd.1]
  apply List.filter_eq_self.mpr
  intro p hp
  obtain ⟨a, b, c, max, hmax, hle⟩ := hd.2 p hp
  have h0 : p.1 ≠ EV_SYN := by
    intro h
    rw [h] at a
    exact absurd a (by decide)
  simp [libevdev_has_event_code, libevdev_has_event_type, a, b, c, h0, hmax, hle, hp]

theorem mem_enabled_capabilities (get_max : Nat → Option Nat) (d : libevdev) (type code : Nat) :
    (type, code) ∈ enabled_capabilities get_max d ↔
      1 ≤ type ∧ libevdev_has_event_code get_max d type code = true := by
  unfold enabled_capabilities
  rw [List.mem_filter, List.mem_dedup]
  constructor
  · rintro ⟨_, h⟩
    simpa using h
  · rintro ⟨h1, h2⟩
    refine ⟨?_, by simpa using ⟨h1, h2⟩⟩
    have h0 : type ≠ EV_SYN := by
      intro h
      rw [h] at h1
      exact absurd h1 (by decide)
    unfold libevdev_has_event_code at h2
    split at h2
    · exact absurd h2 (by simp)
    · split at h2
      · exact absurd h2 (by simp)
      · simp at h2
        exact h2.2

theorem nodup_enabled_capabilities (get_max : Nat → Option Nat) (d : libevdev) :
    (enabled_capabilities get_max d).Nodup :=
  List.Nodup.filter _ (List.nodup_dedup _)

/-- Induction over the generator loop: a property of (state, remaining count)
kept by a skipped draw and by a registration holds, with count 0, of every
state the loop returns. -/
theorem init_random_device_loop_induction (get_max : Nat → Option Nat) (random : Nat → Nat)
    (P : init_state → Nat → Prop)
    (hskip : ∀ s n, P s n → P { s with pos := s.pos + 1 } n)
    (hstep : ∀ s n max, P s (n + 1) → random s.pos % EV_MAX + 1 ≠ EV_REP →
      get_max (random s.pos % EV_MAX + 1) = some max →
      P { d := libevdev_enable_event_code get_max s.d (random s.pos % EV_MAX + 1)
              (random (s.pos + 1) % (max + 1))
              (if random s.pos % EV_MAX + 1 = EV_ABS then some abs else none)
          calls := s.calls ++ [(random s.pos % EV_MAX + 1, random (s.pos + 1) % (max + 1),
              if random s.pos % EV_MAX + 1 = EV_ABS then some abs else none)]
          pos := s.pos + 2 } n) :
    ∀ fuel nbits s r, init_random_device_loop get_max random fuel nbits s = some r →
      P s nbits → P r 0 := by
  intro fuel
  induction fuel with
  | zero =>
    intro nbits s r h hP
    cases nbits with
    | zero =>
      simp only [init_random_device_loop, Option.some.injEq] at h
      exact h ▸ hP
    | succ n => simp [init_random_device_loop] at h
  | succ fuel ih =>
    intro nbits s r h hP
    cases nbits with
    | zero =>
      simp only [init_random_device_loop, Option.some.injEq] at h
      exact h ▸ hP
    | succ n =>
      simp only [init_random_device_loop] at h
      split at h
      · exact ih _ _ _ h (hskip _ _ hP)
      · rename_i hrep
        split at h
        · exact ih _ _ _ h (hskip _ _ hP)
        · rename_i max hmax
          exact ih _ _ _ h (hstep s n max hP hrep hmax)

theorem type_draw_bounds (r : Nat) : 1 ≤ r % EV_MAX + 1 ∧ r % EV_MAX + 1 ≤ EV_MAX := by
  have : r % EV_MAX < EV_MAX := Nat.mod_lt _ (by decide)
  omega

theorem init_inv_loop (get_max : Nat → Option Nat) (random : Nat → Nat) (n0 : Nat) :
    ∀ fuel nbits s r, init_random_device_loop get_max random fuel nbits s = some r →
      init_inv get_max n0 s nbits → init_inv get_max n0 r 0 := by
  apply init_random_device_loop_induction get_max random (init_inv get_max n0)
  · intro s n h
    exact h
  · intro s n max h hrep hmax
    obtain ⟨hwf, hlen, hpos, hcalls, hiff, hnum⟩ := h
    obtain ⟨t1, t2⟩ := type_draw_bounds (random s.pos)
    have hcode : random (s.pos + 1) % (max + 1) ≤ max :=
      Nat.lt_succ_iff.mp (Nat.mod_lt _ (Nat.succ_pos max))
    have hsyn : random s.pos % EV_MAX + 1 ≠ EV_SYN := by
      intro h
      rw [h] at t1
      exact absurd t1 (by decide)
    obtain ⟨-, hc⟩ := enable_legal_bits get_max s.d _ _ max t1 t2 hrep hmax hcode
    refine ⟨well_formed_enable get_max s.d _ _ max hwf t1 t2 hrep hmax hcode, ?_, ?_, ?_, ?_, ?_⟩
    · show (libevdev_enable_event_code get_max s.d _ _ _).code_bits.length + n ≤ n0
      rw [hc]
      split
      · omega
      · simp only [List.length_cons]
        omega
    · intro _
      show 1 ≤ (libevdev_enable_event_code get_max s.d _ _ _).code_bits.length
      rw [hc]
      split
      · rename_i hin
        exact List.length_pos_of_mem hin
      · simp
    · intro c hc'
      rcases List.mem_append.mp hc' with hc' | hc'
      · exact hcalls c hc'
      · rw [List.mem_singleton] at hc'
        subst hc'
        exact ⟨t1, t2, hsyn, hrep, max, hmax, hcode⟩
    · intro t c
      show (t, c) ∈ (libevdev_enable_event_code get_max s.d _ _ _).code_bits ↔ _
      rw [hc]
      constructor
      · intro hm
        have hm' : (t, c) = (random s.pos % EV_MAX + 1, random (s.pos + 1) % (max + 1)) ∨
            (t, c) ∈ s.d.code_bits := by
          split at hm
          · exact Or.inr hm
          · exact List.mem_cons.mp hm
        rcases hm' with heq | hm'
        · refine ⟨if random s.pos % EV_MAX + 1 = EV_ABS then some abs else none, ?_⟩
          rw [Prod.mk.injEq] at heq
          rw [heq.1, heq.2]
          exact List.mem_append_right _ (List.mem_singleton_self _)
        · obtain ⟨data, hd⟩ := (hiff t c).mp hm'
          exact ⟨data, List.mem_append_left _ hd⟩
      · rintro ⟨data, hd⟩
        rcases List.mem_append.mp hd with hd | hd
        · have := (hiff t c).mpr ⟨data, hd⟩
          split
          · exact this
          · exact List.mem_cons_of_mem _ this
        · rw [List.mem_singleton, Prod.mk.injEq, Prod.mk.injEq] at hd
          rw [hd.1, hd.2.1]
          split
          · assumption
          · exact List.mem_cons_self _ _
    · show (s.calls ++ [_]).length + n = n0
      rw [List.length_append, List.length_singleton]
      omega

theorem init_inv_result (get_max : Nat → Option Nat) (name : String) (random : Nat → Nat)
    (pos fuel : Nat) (r : init_state)
    (h : init_random_device get_max name random pos fuel = some r) :
    init_inv get_max (random pos % 64 + 1) r 0 := by
  unfold init_random_device at h
  refine init_inv_loop get_max random _ fuel _ _ r h
    ⟨well_formed_new get_max name, ?_, ?_, ?_, ?_, ?_⟩
  · show (0 : Nat) + _ ≤ _
    omega
  · intro hlt
    exact absurd hlt (Nat.lt_irrefl _)
  · intro c hc
    exact absurd hc (List.not_mem_nil c)
  · intro t c
    constructor
    · intro hm
      exact absurd hm (List.not_mem_nil _)
    · rintro ⟨data, hd⟩
      exact absurd hd (List.not_mem_nil _)
  · show (0 : Nat) + _ = _
    omega

/-- Enough fuel lets the generator loop return whenever the draws it reads are
never skipped: with `fuel ≥ nbits` and a type draw that is registered at every
index, the loop returns. -/
theorem init_random_device_loop_returns (get_max : Nat → Option Nat) (random : Nat → Nat)
    (hgood : ∀ i, random i % EV_MAX + 1 ≠ EV_REP ∧ get_max (random i % EV_MAX + 1) ≠ none) :
    ∀ fuel nbits s, nbits ≤ fuel →
      ∃ r, init_random_device_loop get_max random fuel nbits s = some r := by
  intro fuel
  induction fuel with
  | zero =>
    intro nbits s h
    have : nbits = 0 := Nat.le_zero.mp h
    subst this
    exact ⟨s, by simp [init_random_device_loop]⟩
  | succ fuel ih =>
    intro nbits s h
    cases nbits with
    | zero => exact ⟨s, by simp [init_random_device_loop]⟩
    | succ n =>
      obtain ⟨g1, g2⟩ := hgood s.pos
      simp only [init_random_device_loop, if_neg g1]
      cases hm : get_max (random s.pos % EV_MAX + 1) with
      | none => exact absurd hm g2
      | some max => exact ih n _ (Nat.le_of_succ_le_succ h)

theorem demo_init_run :
    init_random_device linux_max "fuzzy device 0" (replay demo_draws) 0 10
      = some demo_init_state := by
  decide

/-- C1: on every sequence of draws on which `init_random_device` returns, the
requested count `nbits = (first draw mod 64) + 1` lies in [1, 64] and the number
of distinct capabilities (type ≥ 1) enabled on the returned device is at least
1 and at most `nbits`. -/
theorem init_random_device_capability_count (get_max : Nat → Option Nat) (name : String)
    (random : Nat → Nat) (pos fuel : Nat) (r : init_state)
    (h : init_random_device get_max name random pos fuel = some r) :
    1 ≤ random pos % 64 + 1 ∧ random pos % 64 + 1 ≤ 64 ∧
      1 ≤ (enabled_capabilities get_max r.d).length ∧
      (enabled_capabilities get_max r.d).length ≤ random pos % 64 + 1 := by
  obtain ⟨hwf, hlen, hpos, -, -, -⟩ := init_inv_result get_max name random pos fuel r h
  rw [enabled_capabilities_of_well_formed get_max r.d hwf]
  have h64 : random pos % 64 < 64 := Nat.mod_lt _ (by decide)
  refine ⟨by omega, by omega, hpos (by omega), by omega⟩

theorem init_random_device_capability_count_witness :
    init_random_device linux_max "fuzzy device 0" (replay demo_draws) 0 10
        = some demo_init_state ∧
      1 ≤ replay demo_draws 0 % 64 + 1 ∧ replay demo_draws 0 % 64 + 1 ≤ 64 ∧
      1 ≤ (enabled_capabilities linux_max demo_init_state.d).length ∧
      (enabled_capabilities linux_max demo_init_state.d).length
        ≤ replay demo_draws 0 % 64 + 1 :=
  ⟨demo_init_run,
    init_random_device_capability_count linux_max "fuzzy device 0" (replay demo_draws) 0 10
      demo_init_state demo_init_run⟩

/-- C2: every (type, code) pair `init_random_device` registers is legal: the
type lies in [1, EV_MAX], is neither EV_SYN nor EV_REP, has a defined maximum
code, and the code is at most that maximum. Exactly `nbits` registrations are
made, and the capabilities enabled on the returned device are exactly the
registered pairs. -/
theorem init_random_device_registers_legal (get_max : Nat → Option Nat) (name : String)
    (random : Nat → Nat) (pos fuel : Nat) (r : init_state)
    (h : init_random_device get_max name random pos fuel = some r) :
    r.calls.length = random pos % 64 + 1 ∧
      (∀ c ∈ r.calls, 1 ≤ c.1 ∧ c.1 ≤ EV_MAX ∧ c.1 ≠ EV_SYN ∧ c.1 ≠ EV_REP ∧
        ∃ max, get_max c.1 = some max ∧ 0 ≤ c.2.1 ∧ c.2.1 ≤ max) ∧
      (∀ type code, (type, code) ∈ enabled_capabilities get_max r.d ↔
        ∃ data, (type, code, data) ∈ r.calls) := by
  obtain ⟨hwf, -, -, hcalls, hiff, hnum⟩ := init_inv_result get_max name random pos fuel r h
  rw [enabled_capabilities_of_well_formed get_max r.d hwf]
  refine ⟨by omega, ?_, hiff⟩
  intro c hc
  obtain ⟨a, b, c0, c1, max, hmax, hle⟩ := hcalls c hc
  exact ⟨a, b, c0, c1, max, hmax, Nat.zero_le _, hle⟩

theorem init_random_device_registers_legal_witness :
    init_random_device linux_max "fuzzy device 0" (replay demo_draws) 0 10
        = some demo_init_state ∧
      demo_init_state.calls.length = replay demo_draws 0 % 64 + 1 ∧
      (∀ c ∈ demo_init_state.calls, 1 ≤ c.1 ∧ c.1 ≤ EV_MAX ∧ c.1 ≠ EV_SYN ∧ c.1 ≠ EV_REP ∧
        ∃ max, linux_max c.1 = some max ∧ 0 ≤ c.2.1 ∧ c.2.1 ≤ max) ∧
      (∀ type code, (type, code) ∈ enabled_capabilities linux_max demo_init_state.d ↔
        ∃ data, (type, code, data) ∈ demo_init_state.calls) :=
  ⟨demo_init_run,
    init_random_device_registers_legal linux_max "fuzzy device 0" (replay demo_draws) 0 10
      demo_init_state demo_init_run⟩

theorem events_write_event (uinput : libevdev_uinput) (type code : Nat) (value : Int) :
    (libevdev_uinput_write_event uinput type code value).1.events
      = uinput.events ++ [{ type := type, code := code, value := value }] := by
  simp [libevdev_uinput_write_event, libevdev_uinput.events]

theorem rc_write_event (uinput : libevdev_uinput) (type code : Nat) (value : Int) :
    (libevdev_uinput_write_event uinput type code value).1.rc = uinput.rc := rfl

theorem frame_plan_length (bits : List (Nat × Nat)) (random : Nat → Nat) (h : bits.length ≠ 0) :
    ∀ n pos, (frame_plan bits random n pos).length = n := by
  intro n
  induction n with
  | zero => intro pos; rfl
  | succ n ih =>
    intro pos
    simp only [frame_plan, dif_neg h, List.length_cons, ih]

theorem frame_plan_length_le (bits : List (Nat × Nat)) (random : Nat → Nat) :
    ∀ n pos, (frame_plan bits random n pos).length ≤ n := by
  intro n pos
  by_cases h : bits.length = 0
  · cases n with
    | zero => simp [frame_plan]
    | succ n => simp [frame_plan, h]
  · exact Nat.le_of_eq (frame_plan_length bits random h n pos)

theorem send_events_pick_spec (bits : List (Nat × Nat)) (h : bits.length ≠ 0)
    (random : Nat → Nat) (pos : Nat) :
    ((send_events_pick bits h random pos).type, (send_events_pick bits h random pos).code) ∈ bits ∧
      ((send_events_pick bits h random pos).type = EV_KEY ∨
          (send_events_pick bits h random pos).type = EV_SW →
        (send_events_pick bits h random pos).value = 0 ∨
          (send_events_pick bits h random pos).value = 1) ∧
      (¬ ((send_events_pick bits h random pos).type = EV_KEY ∨
          (send_events_pick bits h random pos).type = EV_SW) →
        0 ≤ (send_events_pick bits h random pos).value ∧
          (send_events_pick bits h random pos).value < 50) := by
  refine ⟨?_, ?_, ?_⟩
  · exact List.get_mem _ _ _
  · intro hk
    simp only [send_events_pick] at hk ⊢
    rw [if_pos hk]
    have : random (pos + 1) % 2 < 2 := Nat.mod_lt _ (by decide)
    omega
  · intro hk
    simp only [send_events_pick] at hk ⊢
    rw [if_neg hk]
    have : random (pos + 1) % 50 < 50 := Nat.mod_lt _ (by decide)
    omega

/-- Every event of a frame is drawn from the flattened list and carries a
value of its type's domain. -/
theorem frame_plan_spec (bits : List (Nat × Nat)) (random : Nat → Nat) :
    ∀ n pos, ∀ e ∈ frame_plan bits random n pos,
      (e.type, e.code) ∈ bits ∧
        (e.type = EV_KEY ∨ e.type = EV_SW → e.value = 0 ∨ e.value = 1) ∧
        (¬ (e.type = EV_KEY ∨ e.type = EV_SW) → 0 ≤ e.value ∧ e.value < 50) := by
  intro n
  induction n with
  | zero =>
    intro pos e he
    exact absurd he (List.not_mem_nil e)
  | succ n ih =>
    intro pos e he
    by_cases h : bits.length = 0
    · simp [frame_plan, h] at he
    · simp only [frame_plan, dif_neg h, List.mem_cons] at he
      rcases he with rfl | he
      · exact send_events_pick_spec bits h random pos
      · exact ih _ e he

/-- What the event loop of one frame does to the state, when it returns. -/
theorem send_events_frame_spec (bits : List (Nat × Nat)) (random : Nat → Nat) (tp : timespec) :
    ∀ n s r, send_events_frame bits random tp n s = some r →
      r.pos = s.pos + 2 * n ∧ r.clk = s.clk ∧ r.uinput.rc = s.uinput.rc ∧
        r.uinput.events = s.uinput.events ++ frame_plan bits random n s.pos ∧
        r.out = s.out ++ (frame_plan bits random n s.pos).map (event_line tp) ∧
        (frame_plan bits random n s.pos).length = n := by
  intro n
  induction n with
  | zero =>
    intro s r h
    simp only [send_events_frame, Option.some.injEq] at h
    subst h
    simp [frame_plan]
  | succ n ih =>
    intro s r h
    by_cases hb : bits.length = 0
    · simp [send_events_frame, hb] at h
    · simp only [send_events_frame, dif_neg hb] at h
      obtain ⟨h1, h2, h3, h4, h5, h6⟩ := ih _ r h
      simp only [frame_plan, dif_neg hb]
      refine ⟨?_, h2, ?_, ?_, ?_, ?_⟩
      · rw [h1]
        show s.pos + 2 + 2 * n = s.pos + 2 * (n + 1)
        omega
      · rw [h3]
        rfl
      · rw [h4, events_write_event]
        simp
      · rw [h5]
        simp
      · simp only [List.length_cons]
        exact congrArg Nat.succ h6

/-- The event loop of one frame returns whenever the flattened list is not
empty, and for an empty frame. -/
theorem send_events_frame_returns (bits : List (Nat × Nat)) (random : Nat → Nat)
    (tp : timespec) :
    ∀ n s, (bits.length ≠ 0 ∨ n = 0) → ∃ r, send_events_frame bits random tp n s = some r := by
  intro n
  induction n with
  | zero =>
    intro s _
    exact ⟨s, rfl⟩
  | succ n ih =>
    intro s h
    have hb : bits.length ≠ 0 := by
      rcases h with h | h
      · exact h
      · exact absurd h (Nat.succ_ne_zero n)
    simp only [send_events_frame, dif_neg hb]
    exact ih _ (Or.inl hb)

theorem session_plan_length (bits : List (Nat × Nat)) (random : Nat → Nat) :
    ∀ n pos, (session_plan bits random n pos).length = n := by
  intro n
  induction n with
  | zero => intro pos; rfl
  | succ n ih =>
    intro pos
    simp only [session_plan, List.length_cons, ih]

/-- Every frame of a session has fewer than 12 events, all drawn from the
flattened list with a value of their type's domain. -/
theorem session_plan_spec (bits : List (Nat × Nat)) (random : Nat → Nat) :
    ∀ n pos, ∀ f ∈ session_plan bits random n pos,
      f.length < 12 ∧ ∀ e ∈ f, (e.type, e.code) ∈ bits ∧
        (e.type = EV_KEY ∨ e.type = EV_SW → e.value = 0 ∨ e.value = 1) ∧
        (¬ (e.type = EV_KEY ∨ e.type = EV_SW) → 0 ≤ e.value ∧ e.value < 50) := by
  intro n
  induction n with
  | zero =>
    intro pos f hf
    exact absurd hf (List.not_mem_nil f)
  | succ n ih =>
    intro pos f hf
    simp only [session_plan, List.mem_cons] at hf
    rcases hf with rfl | hf
    · refine ⟨?_, frame_plan_spec bits random _ _⟩
      have h1 := frame_plan_length_le bits random (random pos % 12) (pos + 1)
      have h2 : random pos % 12 < 12 := Nat.mod_lt _ (by decide)
      omega
    · exact ih _ f hf

/-- What the frame loop does to the state, when it returns. -/
theorem send_events_frames_spec (bits : List (Nat × Nat)) (random : Nat → Nat)
    (clock : Nat → timespec) (tp_last : timespec) :
    ∀ n s r, send_events_frames bits random clock tp_last n s = some r →
      r.uinput.rc = s.uinput.rc ∧ r.clk = s.clk + n ∧
        r.uinput.events = s.uinput.events ++ plan_writes (session_plan bits random n s.pos) ∧
        r.out = s.out ++ plan_lines clock tp_last s.clk (session_plan bits random n s.pos) ∧
        (∀ f ∈ session_plan bits random n s.pos, f.length ≠ 0 → bits.length ≠ 0) := by
  intro n
  induction n with
  | zero =>
    intro s r h
    simp only [send_events_frames, Option.some.injEq] at h
    subst h
    simp [session_plan, plan_writes, plan_lines]
  | succ n ih =>
    intro s r h
    simp only [send_events_frames] at h
    split at h
    · exact absurd h (by simp)
    · rename_i s1 hs1
      obtain ⟨a1, a2, a3, a4, a5, a6⟩ := send_events_frame_spec bits random _ _ _ s1 hs1
      obtain ⟨b1, b2, b3, b4, b5⟩ := ih _ r h
      simp only [] at a1 a2 a4 a5 a6 b1 b2 b3 b4 b5
      simp only [session_plan, plan_writes, plan_lines, List.flatMap_cons]
      rw [a1] at b3 b4 b5
      rw [a2] at b2 b4
      refine ⟨?_, ?_, ?_, ?_, ?_⟩
      · rw [b1, rc_write_event, a3]
      · rw [b2]
        omega
      · rw [b3, events_write_event, a4]
        simp [plan_writes, sync_event]
      · rw [b4, a5]
        simp [sync_line]
      · intro f hf hne
        rcases List.mem_cons.mp hf with rfl | hf
        · intro hb
          apply hne
          cases hq : random s.pos % 12 with
          | zero => simp [frame_plan]
          | succ k => simp [frame_plan, hb]
        · exact b5 f hf hne

/-- The frame loop returns whenever the flattened list is not empty. -/
theorem send_events_frames_returns (bits : List (Nat × Nat)) (random : Nat → Nat)
    (clock : Nat → timespec) (tp_last : timespec) (hb : bits.length ≠ 0) :
    ∀ n s, ∃ r, send_events_frames bits random clock tp_last n s = some r := by
  intro n
  induction n with
  | zero =>
    intro s
    exact ⟨s, rfl⟩
  | succ n ih =>
    intro s
    obtain ⟨s1, hs1⟩ := send_events_frame_returns bits random (clock s.clk)
      (random s.pos % 12) { s with pos := s.pos + 1, clk := s.clk + 1 } (Or.inl hb)
    simp only [send_events_frames, hs1]
    exact ih _

theorem has_event_code_type (get_max : Nat → Option Nat) (d : libevdev) (type code : Nat)
    (h : libevdev_has_event_code get_max d type code = true) :
    libevdev_has_event_type d type = true := by
  unfold libevdev_has_event_code at h
  split at h
  · exact absurd h (by simp)
  · rename_i hne
    simpa using hne

theorem has_event_code_le (get_max : Nat → Option Nat) (d : libevdev) (type code max : Nat)
    (h1 : 1 ≤ type) (hmax : get_max type = some max)
    (h : libevdev_has_event_code get_max d type code = true) : code ≤ max := by
  have h0 : type ≠ EV_SYN := by
    intro h
    rw [h] at h1
    exact absurd h1 (by decide)
  unfold libevdev_has_event_code at h
  split at h
  · exact absurd h (by simp)
  · rw [hmax] at h
    simp at h
    exact h.1

theorem mem_send_events_codes (get_max : Nat → Option Nat) (d : libevdev)
    (type max : Nat) (p : Nat × Nat) :
    p ∈ send_events_codes get_max d type max ↔
      p.1 = type ∧ p.2 ≤ max ∧ libevdev_has_event_code get_max d type p.2 = true := by
  unfold send_events_codes
  rw [List.mem_map]
  constructor
  · rintro ⟨c, hc, rfl⟩
    rw [List.mem_filter, List.mem_range] at hc
    exact ⟨rfl, Nat.lt_succ_iff.mp hc.1, hc.2⟩
  · rintro ⟨h1, h2, h3⟩
    refine ⟨p.2, ?_, ?_⟩
    · rw [List.mem_filter, List.mem_range]
      exact ⟨Nat.lt_succ_iff.mpr h2, h3⟩
    · rw [← h1]

theorem mem_send_events_type (get_max : Nat → Option Nat) (d : libevdev)
    (type : Nat) (p : Nat × Nat) :
    p ∈ send_events_type get_max d type ↔
      p.1 = type ∧ libevdev_has_event_type d type = true ∧
        ∃ max, get_max type = some max ∧ p.2 ≤ max ∧
          libevdev_has_event_code get_max d type p.2 = true := by
  unfold send_events_type
  by_cases ht : libevdev_has_event_type d type = false
  · simp [ht]
  · rw [if_neg ht]
    have ht' : libevdev_has_event_type d type = true := by simpa using ht
    cases hm : get_max type with
    | none => simp
    | some max =>
      simp only [mem_send_events_codes, Option.some.injEq, exists_eq_left']
      constructor
      · rintro ⟨a, b, c⟩
        exact ⟨a, ht', b, c⟩
      · rintro ⟨a, -, b, c⟩
        exact ⟨a, b, c⟩

theorem mem_send_events_bits (get_max : Nat → Option Nat) (d : libevdev) (type code : Nat) :
    (type, code) ∈ send_events_bits get_max d ↔
      1 ≤ type ∧ type ≤ EV_MAX ∧ (∃ max, get_max type = some max) ∧
        libevdev_has_event_code get_max d type code = true := by
  unfold send_events_bits
  rw [List.mem_flatMap]
  constructor
  · rintro ⟨t, ht, hp⟩
    rw [List.mem_range'_1] at ht
    obtain ⟨h1, -, max, hmax, -, hc⟩ := (mem_send_events_type get_max d t _).mp hp
    simp only [] at h1
    subst h1
    exact ⟨ht.1, by omega, ⟨max, hmax⟩, hc⟩
  · rintro ⟨h1, h2, ⟨max, hmax⟩, hc⟩
    refine ⟨type, ?_, ?_⟩
    · rw [List.mem_range'_1]
      omega
    · exact (mem_send_events_type get_max d type _).mpr
        ⟨rfl, has_event_code_type get_max d type code hc, max, hmax,
          has_event_code_le get_max d type code max h1 hmax hc, hc⟩

theorem pairwise_send_events_type (get_max : Nat → Option Nat) (d : libevdev) (type : Nat) :
    (send_events_type get_max d type).Pairwise bits_lt := by
  unfold send_events_type
  split
  · exact List.Pairwise.nil
  · split
    · exact List.Pairwise.nil
    · unfold send_events_codes
      rw [List.pairwise_map]
      apply List.Pairwise.filter
      exact List.Pairwise.imp (fun h => Or.inr ⟨rfl, h⟩) (List.pairwise_lt_range _)

theorem pairwise_send_events_bits (get_max : Nat → Option Nat) (d : libevdev) :
    (send_events_bits get_max d).Pairwise bits_lt := by
  unfold send_events_bits
  rw [List.pairwise_flatMap]
  refine ⟨fun t _ => pairwise_send_events_type get_max d t, ?_⟩
  apply List.Pairwise.imp _ (List.pairwise_lt_range' 1 EV_MAX)
  intro a b hab x hx y hy
  have hx1 := ((mem_send_events_type get_max d a x).mp hx).1
  have hy1 := ((mem_send_events_type get_max d b y).mp hy).1
  exact Or.inl (by omega)

theorem nodup_send_events_bits (get_max : Nat → Option Nat) (d : libevdev) :
    (send_events_bits get_max d).Nodup := by
  apply List.Pairwise.imp _ (pairwise_send_events_bits get_max d)
  intro a b hab heq
  subst heq
  rcases hab with h | ⟨-, h⟩
  · exact Nat.lt_irrefl _ h
  · exact Nat.lt_irrefl _ h

theorem send_events_type_congr (get_max : Nat → Option Nat) (d d' : libevdev) (type : Nat)
    (h : ∀ code, libevdev_has_event_code get_max d' type code
      = libevdev_has_event_code get_max d type code) :
    send_events_type get_max d' type = send_events_type get_max d type := by
  have key : ∀ e : libevdev, send_events_type get_max e type =
      match get_max type with
      | none => []
      | some max => send_events_codes get_max e type max := by
    intro e
    unfold send_events_type
    split
    · rename_i hf
      cases hm : get_max type with
      | none => rfl
      | some max =>
        symm
        unfold send_events_codes
        rw [List.map_eq_nil_iff, List.filter_eq_nil_iff]
        intro c _ hc
        have := has_event_code_type get_max e type c hc
        rw [hf] at this
        exact absurd this (by simp)
    · rfl
  rw [key d, key d']
  cases get_max type with
  | none => rfl
  | some max =>
    simp only [send_events_codes]
    congr 1
    apply List.filter_congr
    intro c _
    exact h c

theorem send_events_bits_congr (get_max : Nat → Option Nat) (d d' : libevdev)
    (h : ∀ type code, 1 ≤ type → libevdev_has_event_code get_max d' type code
      = libevdev_has_event_code get_max d type code) :
    send_events_bits get_max d' = send_events_bits get_max d := by
  unfold send_events_bits
  have : ∀ l : List Nat, (∀ t ∈ l, 1 ≤ t) →
      l.flatMap (send_events_type get_max d') = l.flatMap (send_events_type get_max d) := by
    intro l
    induction l with
    | nil => intro _; rfl
    | cons a l ih =>
      intro hl
      rw [List.flatMap_cons, List.flatMap_cons,
        send_events_type_congr get_max d d' a
          (fun c => h a c (hl a (List.mem_cons_self _ _))),
        ih (fun t ht => hl t (List.mem_cons_of_mem _ ht))]
  apply this
  intro t ht
  rw [List.mem_range'_1] at ht
  exact ht.1

/-- What a run of `send_events` that returns has done: the sink received the
frames of the session plan, the trace holds their lines. -/
theorem send_events_spec (get_max : Nat → Option Nat) (d : libevdev) (uinput : libevdev_uinput)
    (random : Nat → Nat) (clock : Nat → timespec) (pos : Nat) (r : send_state)
    (h : send_events get_max d uinput random clock pos = some r) :
    written uinput r
        = plan_writes (session_plan (send_events_bits get_max d) random (random pos % 200) (pos + 1)) ∧
      r.out = plan_lines clock (clock 0) 1
        (session_plan (send_events_bits get_max d) random (random pos % 200) (pos + 1)) ∧
      r.uinput.rc = uinput.rc ∧
      (send_events_bits get_max d).length ≤ EV_MAX * KEY_MAX := by
  unfold send_events at h
  simp only [] at h
  split at h
  · exact absurd h (by simp)
  · rename_i hcap
    obtain ⟨h1, -, h3, h4, -⟩ := send_events_frames_spec _ random clock _ _ _ r h
    simp only [List.nil_append] at h3 h4
    refine ⟨?_, h4, h1, Nat.not_lt.mp hcap⟩
    unfold written
    rw [h3]
    have : uinput.calls.length = uinput.events.length := by
      simp [libevdev_uinput.events]
    rw [this, List.drop_left]

/-- A run of `send_events` returns whenever the flattened list is not empty
and fits the scratch array. -/
theorem send_events_returns (get_max : Nat → Option Nat) (d : libevdev) (uinput : libevdev_uinput)
    (random : Nat → Nat) (clock : Nat → timespec) (pos : Nat)
    (h0 : (send_events_bits get_max d).length ≠ 0)
    (hcap : (send_events_bits get_max d).length ≤ EV_MAX * KEY_MAX) :
    ∃ r, send_events get_max d uinput random clock pos = some r := by
  unfold send_events
  simp only [if_neg (Nat.not_lt.mpr hcap)]
  exact send_events_frames_returns _ random clock _ h0 _ _

theorem mem_plan_writes (frames : List (List input_event)) (e : input_event)
    (h : e ∈ plan_writes frames) : e = sync_event ∨ ∃ f ∈ frames, e ∈ f := by
  unfold plan_writes at h
  rw [List.mem_flatMap] at h
  obtain ⟨f, hf, he⟩ := h
  rcases List.mem_append.mp he with he | he
  · exact Or.inr ⟨f, hf, he⟩
  · exact Or.inl (List.mem_singleton.mp he)

theorem count_sync_plan_writes (frames : List (List input_event))
    (h : ∀ f ∈ frames, ∀ e ∈ f, e.type ≠ EV_SYN) :
    ((plan_writes frames).filter (fun e => decide (e.type = EV_SYN))).length = frames.length := by
  induction frames with
  | nil => rfl
  | cons f fs ih =>
    have hf : f.filter (fun e => decide (e.type = EV_SYN)) = [] := by
      rw [List.filter_eq_nil_iff]
      intro e he
      simpa using h f (List.mem_cons_self _ _) e he
    have ih' := ih (fun g hg => h g (List.mem_cons_of_mem _ hg))
    unfold plan_writes at ih' ⊢
    rw [List.flatMap_cons, List.filter_append, List.filter_append, hf, List.length_append,
      List.length_append, ih']
    simp [sync_event]
    omega

set_option maxRecDepth 100000 in
theorem demo_send_run :
    send_events linux_max demo_init_state.d good_sink (replay demo_send_draws) second_clock 0
      = some demo_send_state := by
  rfl

set_option maxRecDepth 100000 in
theorem demo_send_bits :
    send_events_bits linux_max demo_init_state.d = [(1, 5), (3, 7)] := by
  decide

/-- C3: in every run of `send_events`, over any capability set and any
sequence of draws, the (type, code) of every non-synchronization event written
to the sink is a capability of the input device. The run returns whenever the
flattened list is not empty and fits the scratch array. -/
theorem send_events_emits_capabilities (get_max : Nat → Option Nat) (d : libevdev)
    (uinput : libevdev_uinput) (random : Nat → Nat) (clock : Nat → timespec) (pos : Nat) :
    ((send_events_bits get_max d).length ≠ 0 →
      (send_events_bits get_max d).length ≤ EV_MAX * KEY_MAX →
      ∃ r, send_events get_max d uinput random clock pos = some r) ∧
    ∀ r, send_events get_max d uinput random clock pos = some r →
      ∀ e ∈ written uinput r, e.type ≠ EV_SYN →
        (e.type, e.code) ∈ enabled_capabilities get_max d ∧
          libevdev_has_event_code get_max d e.type e.code = true := by
  refine ⟨send_events_returns get_max d uinput random clock pos, ?_⟩
  intro r h e he hsyn
  obtain ⟨hw, -, -, -⟩ := send_events_spec get_max d uinput random clock pos r h
  rw [hw] at he
  rcases mem_plan_writes _ e he with rfl | ⟨f, hf, hef⟩
  · exact absurd rfl hsyn
  · obtain ⟨hmem, -, -⟩ := (session_plan_spec _ random _ _ f hf).2 e hef
    obtain ⟨h1, -, -, hc⟩ := (mem_send_events_bits get_max d e.type e.code).mp hmem
    exact ⟨(mem_enabled_capabilities get_max d e.type e.code).mpr ⟨h1, hc⟩, hc⟩

theorem send_events_emits_capabilities_witness :
    (∃ r, send_events linux_max demo_init_state.d good_sink (replay demo_send_draws)
        second_clock 0 = some r) ∧
      send_events linux_max demo_init_state.d good_sink (replay demo_send_draws)
        second_clock 0 = some demo_send_state ∧
      ∀ e ∈ written good_sink demo_send_state, e.type ≠ EV_SYN →
        (e.type, e.code) ∈ enabled_capabilities linux_max demo_init_state.d ∧
          libevdev_has_event_code linux_max demo_init_state.d e.type e.code = true :=
  ⟨(send_events_emits_capabilities linux_max demo_init_state.d good_sink
      (replay demo_send_draws) second_clock 0).1
      (by rw [demo_send_bits]; decide) (by rw [demo_send_bits]; decide),
    demo_send_run,
    (send_events_emits_capabilities linux_max demo_init_state.d good_sink
      (replay demo_send_draws) second_clock 0).2 demo_send_state demo_send_run⟩

/-- C4: every event `send_events` writes has a value of its type's domain: 0 or
1 when the type is EV_KEY or EV_SW, and a value `v` with `0 ≤ v < 50` for every
other type. The run returns whenever the flattened list is not empty and fits
the scratch array. -/
theorem send_events_value_domain (get_max : Nat → Option Nat) (d : libevdev)
    (uinput : libevdev_uinput) (random : Nat → Nat) (clock : Nat → timespec) (pos : Nat) :
    ((send_events_bits get_max d).length ≠ 0 →
      (send_events_bits get_max d).length ≤ EV_MAX * KEY_MAX →
      ∃ r, send_events get_max d uinput random clock pos = some r) ∧
    ∀ r, send_events get_max d uinput random clock pos = some r →
      ∀ e ∈ written uinput r,
        (e.type = EV_KEY ∨ e.type = EV_SW → e.value = 0 ∨ e.value = 1) ∧
          (¬ (e.type = EV_KEY ∨ e.type = EV_SW) → 0 ≤ e.value ∧ e.value < 50) := by
  refine ⟨send_events_returns get_max d uinput random clock pos, ?_⟩
  intro r h e he
  obtain ⟨hw, -, -, -⟩ := send_events_spec get_max d uinput random clock pos r h
  rw [hw] at he
  rcases mem_plan_writes _ e he with rfl | ⟨f, hf, hef⟩
  · exact ⟨fun _ => Or.inl rfl, fun _ => ⟨le_refl _, by decide⟩⟩
  · exact ((session_plan_spec _ random _ _ f hf).2 e hef).2

theorem send_events_value_domain_witness :
    (∃ r, send_events linux_max demo_init_state.d good_sink (replay demo_send_draws)
        second_clock 0 = some r) ∧
      send_events linux_max demo_init_state.d good_sink (replay demo_send_draws)
        second_clock 0 = some demo_send_state ∧
      ∀ e ∈ written good_sink demo_send_state,
        (e.type = EV_KEY ∨ e.type = EV_SW → e.value = 0 ∨ e.value = 1) ∧
          (¬ (e.type = EV_KEY ∨ e.type = EV_SW) → 0 ≤ e.value ∧ e.value < 50) :=
  ⟨(send_events_value_domain linux_max demo_init_state.d good_sink
      (replay demo_send_draws) second_clock 0).1
      (by rw [demo_send_bits]; decide) (by rw [demo_send_bits]; decide),
    demo_send_run,
    (send_events_value_domain linux_max demo_init_state.d good_sink
      (replay demo_send_draws) second_clock 0).2 demo_send_state demo_send_run⟩

/-- C5: in every run of `send_events` the sink writes are a concatenation of
`nframes` frames, `nframes = draw mod 200 < 200`; each frame is fewer than 12
non-synchronization events followed by exactly one write of
(EV_SYN, SYN_REPORT, 0); the number of synchronization writes equals `nframes`.
The run returns whenever the flattened list is not empty and fits the scratch
array, so no frame is left unterminated. -/
theorem send_events_frame_structure (get_max : Nat → Option Nat) (d : libevdev)
    (uinput : libevdev_uinput) (random : Nat → Nat) (clock : Nat → timespec) (pos : Nat) :
    ((send_events_bits get_max d).length ≠ 0 →
      (send_events_bits get_max d).length ≤ EV_MAX * KEY_MAX →
      ∃ r, send_events get_max d uinput random clock pos = some r) ∧
    ∀ r, send_events get_max d uinput random clock pos = some r →
      ∃ frames : List (List input_event),
        frames.length = random pos % 200 ∧ 0 ≤ frames.length ∧ frames.length < 200 ∧
        (∀ f ∈ frames, 0 ≤ f.length ∧ f.length < 12 ∧ ∀ e ∈ f, e.type ≠ EV_SYN) ∧
        written uinput r = frames.flatMap
          (fun f => f ++ [{ type := EV_SYN, code := SYN_REPORT, value := 0 }]) ∧
        ((written uinput r).filter (fun e => decide (e.type = EV_SYN))).length
          = random pos % 200 := by
  refine ⟨send_events_returns get_max d uinput random clock pos, ?_⟩
  intro r h
  obtain ⟨hw, -, -, -⟩ := send_events_spec get_max d uinput random clock pos r h
  have hlen := session_plan_length (send_events_bits get_max d) random (random pos % 200) (pos + 1)
  have hsyn : ∀ f ∈ session_plan (send_events_bits get_max d) random (random pos % 200) (pos + 1),
      ∀ e ∈ f, e.type ≠ EV_SYN := by
    intro f hf e he
    obtain ⟨hmem, -, -⟩ := (session_plan_spec _ random _ _ f hf).2 e he
    obtain ⟨h1, -, -, -⟩ := (mem_send_events_bits get_max d e.type e.code).mp hmem
    intro h0
    rw [h0] at h1
    exact absurd h1 (by decide)
  refine ⟨_, hlen, Nat.zero_le _, ?_, ?_, hw, ?_⟩
  · rw [hlen]
    exact Nat.mod_lt _ (by decide)
  · intro f hf
    exact ⟨Nat.zero_le _, (session_plan_spec _ random _ _ f hf).1, hsyn f hf⟩
  · rw [hw, count_sync_plan_writes _ hsyn, hlen]

theorem send_events_frame_structure_witness :
    (∃ r, send_events linux_max demo_init_state.d good_sink (replay demo_send_draws)
        second_clock 0 = some r) ∧
      send_events linux_max demo_init_state.d good_sink (replay demo_send_draws)
        second_clock 0 = some demo_send_state ∧
      ∃ frames : List (List input_event),
        frames.length = replay demo_send_draws 0 % 200 ∧ 0 ≤ frames.length ∧
        frames.length < 200 ∧
        (∀ f ∈ frames, 0 ≤ f.length ∧ f.length < 12 ∧ ∀ e ∈ f, e.type ≠ EV_SYN) ∧
        written good_sink demo_send_state = frames.flatMap
          (fun f => f ++ [{ type := EV_SYN, code := SYN_REPORT, value := 0 }]) ∧
        ((written good_sink demo_send_state).filter
          (fun e => decide (e.type = EV_SYN))).length = replay demo_send_draws 0 % 200 :=
  ⟨(send_events_frame_structure linux_max demo_init_state.d good_sink
      (replay demo_send_draws) second_clock 0).1
      (by rw [demo_send_bits]; decide) (by rw [demo_send_bits]; decide),
    demo_send_run,
    (send_events_frame_structure linux_max demo_init_state.d good_sink
      (replay demo_send_draws) second_clock 0).2 demo_send_state demo_send_run⟩

set_option maxRecDepth 100000 in
/-- C6: evaluation of `send_events` on three frames and a clock that reads 10 s
before the loop, 10 s in the first frame, 11 s in the second and 12 s in the
third. The three synchronization lines carry dt = 0, 1000000 and 2000000: dt
is the time since the reading taken before the loop. The third frame comes
1000000 microseconds after the second, yet its dt is 2000000. -/
theorem send_events_dt_since_start :
    (send_events linux_max demo_init_state.d good_sink (replay stall_draws)
        stall_clock 0).map (fun r => sync_dts r.out) = some [0, 1000000, 2000000] ∧
      timespec_usec (stall_clock 1) - timespec_usec (stall_clock 0) = 0 ∧
      timespec_usec (stall_clock 2) - timespec_usec (stall_clock 1) = 1000000 ∧
      timespec_usec (stall_clock 3) - timespec_usec (stall_clock 2) = 1000000 ∧
      timespec_usec (stall_clock 3) - timespec_usec (stall_clock 0) = 2000000 := by
  refine ⟨?_, by decide, by decide, by decide, by decide⟩
  decide

set_option maxRecDepth 100000 in
/-- C7, refuted as stated: on a sink whose third write fails, `send_events`
goes on to write the fourth event and the synchronization event. -/
theorem send_events_continues_after_failure :
    ∃ r, send_events linux_max demo_init_state.d failing_sink (replay failing_draws)
        second_clock 0 = some r ∧ ¬ halts_on_failure r.uinput.calls := by
  refine ⟨failing_send_state, rfl, ?_⟩
  intro h
  exact absurd (h 2 (by decide) (by decide)) (by decide)

theorem send_events_frame_some_cond (bits : List (Nat × Nat)) (random : Nat → Nat)
    (tp : timespec) (n : Nat) (s r : send_state)
    (h : send_events_frame bits random tp n s = some r) : bits.length ≠ 0 ∨ n = 0 := by
  cases n with
  | zero => exact Or.inr rfl
  | succ n =>
    by_cases hb : bits.length = 0
    · simp [send_events_frame, hb] at h
    · exact Or.inl hb

/-- Whether the frame loop returns depends on the flattened list and the
draws only, not on the clock, the sink or the trace so far. -/
theorem send_events_frames_returns_congr (bits : List (Nat × Nat)) (random : Nat → Nat)
    (clock clock' : Nat → timespec) (tp_last tp_last' : timespec) :
    ∀ n s s', s.pos = s'.pos →
      (∃ r, send_events_frames bits random clock tp_last n s = some r) →
      ∃ r', send_events_frames bits random clock' tp_last' n s' = some r' := by
  intro n
  induction n with
  | zero =>
    intro s s' _ _
    exact ⟨s', rfl⟩
  | succ n ih =>
    intro s s' hpos h
    obtain ⟨r, h⟩ := h
    simp only [send_events_frames] at h
    split at h
    · exact absurd h (by simp)
    · rename_i s1 hs1
      have hc := send_events_frame_some_cond _ _ _ _ _ _ hs1
      obtain ⟨s1', hs1'⟩ := send_events_frame_returns bits random (clock' s'.clk)
        (random s.pos % 12) { s' with pos := s'.pos + 1, clk := s'.clk + 1 } hc
      have p1 := (send_events_frame_spec _ _ _ _ _ _ hs1).1
      have p1' := (send_events_frame_spec _ _ _ _ _ _ hs1').1
      rw [← hpos] at hs1' p1'
      simp only [send_events_frames, ← hpos, hs1']
      apply ih _ _ _ ⟨r, h⟩
      show s1.pos = s1'.pos
      rw [p1, p1']

theorem send_events_returns_congr (get_max : Nat → Option Nat) (d : libevdev)
    (uinput uinput' : libevdev_uinput) (random : Nat → Nat) (clock clock' : Nat → timespec)
    (pos : Nat) (h : ∃ r, send_events get_max d uinput random clock pos = some r) :
    ∃ r', send_events get_max d uinput' random clock' pos = some r' := by
  unfold send_events at h ⊢
  simp only [] at h ⊢
  split
  · rename_i hcap
    rw [if_pos hcap] at h
    obtain ⟨r, h⟩ := h
    exact absurd h (by simp)
  · rename_i hcap
    rw [if_neg hcap] at h
    exact send_events_frames_returns_congr _ random clock clock' _ _ _
      { pos := pos + 1, clk := 1, uinput := uinput, out := [] }
      { pos := pos + 1, clk := 1, uinput := uinput', out := [] } rfl h

/-- C7, amended: `send_events` drops the result of `write_event`. Whatever the
sink answers, the run returns, hands the same events to the sink in the same
order and prints the same trace; the results the sink gave are kept by the
sink alone. -/
theorem send_events_ignores_write_result (get_max : Nat → Option Nat) (d : libevdev)
    (uinput : libevdev_uinput) (random : Nat → Nat) (clock : Nat → timespec) (pos : Nat)
    (rc' : Nat → Int) (r : send_state)
    (h : send_events get_max d uinput random clock pos = some r) :
    ∃ r', send_events get_max d { uinput with rc := rc' } random clock pos = some r' ∧
      written { uinput with rc := rc' } r' = written uinput r ∧ r'.out = r.out ∧
      r'.uinput.rc = rc' := by
  obtain ⟨r', h'⟩ := send_events_returns_congr get_max d uinput { uinput with rc := rc' }
    random clock clock pos ⟨r, h⟩
  obtain ⟨a1, a2, -, -⟩ := send_events_spec get_max d uinput random clock pos r h
  obtain ⟨b1, b2, b3, -⟩ := send_events_spec get_max d _ random clock pos r' h'
  exact ⟨r', h', by rw [a1, b1], by rw [a2, b2], b3⟩

set_option maxRecDepth 100000 in
theorem send_events_ignores_write_result_witness :
    send_events linux_max demo_init_state.d failing_sink (replay failing_draws) second_clock 0
        = some failing_send_state ∧
      ∃ r', send_events linux_max demo_init_state.d { failing_sink with rc := good_sink.rc }
          (replay failing_draws) second_clock 0 = some r' ∧
        written { failing_sink with rc := good_sink.rc } r'
          = written failing_sink failing_send_state ∧
        r'.out = failing_send_state.out ∧ r'.uinput.rc = good_sink.rc :=
  ⟨rfl, send_events_ignores_write_result linux_max demo_init_state.d failing_sink
    (replay failing_draws) second_clock 0 good_sink.rc failing_send_state rfl⟩

theorem plan_lines_congr (clock clock' : Nat → timespec) (tp_last : timespec) :
    ∀ (frames : List (List input_event)) (clk : Nat),
      (∀ i, i < frames.length → clock' (clk + i) = clock (clk + i)) →
      plan_lines clock' tp_last clk frames = plan_lines clock tp_last clk frames := by
  intro frames
  induction frames with
  | nil => intro clk _; rfl
  | cons f fs ih =>
    intro clk h
    have h0 : clock' clk = clock clk := h 0 (Nat.succ_pos _)
    have hrest : ∀ i, i < fs.length → clock' (clk + 1 + i) = clock (clk + 1 + i) := by
      intro i hi
      have := h (i + 1) (Nat.succ_lt_succ hi)
      rw [show clk + 1 + i = clk + (i + 1) by omega]
      exact this
    simp only [plan_lines, h0, ih (clk + 1) hrest]

set_option maxRecDepth 100000 in
/-- C8, refuted as stated: two runs of the full pipeline on the same draws
print different traces when the clock readings differ. -/
theorem test_one_device_trace_depends_on_clock :
    ∃ r r', test_one_device linux_max "fuzzy device 0" good_sink
          (replay (demo_draws ++ demo_send_draws)) second_clock 0 10 = some r ∧
        test_one_device linux_max "fuzzy device 0" good_sink
          (replay (demo_draws ++ demo_send_draws)) late_clock 0 10 = some r' ∧
        render_trace some_type_name some_code_name r.out
          ≠ render_trace some_type_name some_code_name r'.out := by
  refine ⟨pipeline_state, late_pipeline_state, rfl, rfl, ?_⟩
  decide

/-- C8, amended: given the same draws and the same clock readings (the first
200 readings, all a run can take), two runs of the full pipeline hand the same
events to the sink and print byte-identical traces. -/
theorem test_one_device_deterministic (get_max : Nat → Option Nat) (name : String)
    (uinput : libevdev_uinput) (random : Nat → Nat) (clock clock' : Nat → timespec)
    (pos fuel : Nat) (type_name : Nat → Option String) (code_name : Nat → Nat → Option String)
    (r : send_state)
    (hclock : ∀ k, k < 200 → clock' k = clock k)
    (h : test_one_device get_max name uinput random clock pos fuel = some r) :
    ∃ r', test_one_device get_max name uinput random clock' pos fuel = some r' ∧
      written uinput r' = written uinput r ∧
      render_trace type_name code_name r'.out = render_trace type_name code_name r.out := by
  unfold test_one_device at h ⊢
  cases hi : init_random_device get_max name random pos fuel with
  | none => simp [hi] at h
  | some s =>
    simp only [hi] at h ⊢
    obtain ⟨r', h'⟩ := send_events_returns_congr get_max s.d uinput uinput random clock clock'
      s.pos ⟨r, h⟩
    obtain ⟨a1, a2, -, -⟩ := send_events_spec get_max s.d uinput random clock s.pos r h
    obtain ⟨b1, b2, -, -⟩ := send_events_spec get_max s.d uinput random clock' s.pos r' h'
    refine ⟨r', h', by rw [a1, b1], ?_⟩
    have hlen := session_plan_length (send_events_bits get_max s.d) random
      (random s.pos % 200) (s.pos + 1)
    have h200 : random s.pos % 200 < 200 := Nat.mod_lt _ (by decide)
    rw [a2, b2, hclock 0 (by decide), plan_lines_congr clock clock' (clock 0) _ 1]
    intro i hi'
    rw [hlen] at hi'
    exact hclock _ (by omega)

set_option maxRecDepth 100000 in
theorem test_one_device_deterministic_witness :
    (∀ k, k < 200 → second_clock_200 k = second_clock k) ∧
      test_one_device linux_max "fuzzy device 0" good_sink
        (replay (demo_draws ++ demo_send_draws)) second_clock 0 10 = some pipeline_state ∧
      ∃ r', test_one_device linux_max "fuzzy device 0" good_sink
          (replay (demo_draws ++ demo_send_draws)) second_clock_200 0 10 = some r' ∧
        written good_sink r' = written good_sink pipeline_state ∧
        render_trace some_type_name some_code_name r'.out
          = render_trace some_type_name some_code_name pipeline_state.out :=
  ⟨fun _ hk => if_pos hk, rfl,
    test_one_device_deterministic linux_max "fuzzy device 0" good_sink
      (replay (demo_draws ++ demo_send_draws)) second_clock second_clock_200 0 10
      some_type_name some_code_name pipeline_state (fun _ hk => if_pos hk) rfl⟩

/-- On a constant source whose type draw is skipped (the repeat type, or a
type without a maximum) the generator loop never returns while registrations
remain. -/
theorem init_random_device_loop_const_none (get_max : Nat → Option Nat) (v : Nat)
    (hbad : v % EV_MAX + 1 = EV_REP ∨ get_max (v % EV_MAX + 1) = none) :
    ∀ fuel nbits s,
      init_random_device_loop get_max (const_random v) fuel (nbits + 1) s = none := by
  intro fuel
  induction fuel with
  | zero =>
    intro nbits s
    rfl
  | succ fuel ih =>
    intro nbits s
    simp only [init_random_device_loop, const_random]
    by_cases hrep : v % EV_MAX + 1 = EV_REP
    · rw [if_pos hrep]
      exact ih _ _
    · rw [if_neg hrep]
      rcases hbad with hbad | hbad
      · exact absurd hbad hrep
      · rw [hbad]
        exact ih _ _

theorem length_le_one_of_all_eq {α : Type} (l : List α) (a : α) (hn : l.Nodup)
    (h : ∀ p ∈ l, p = a) : l.length ≤ 1 := by
  match l, hn, h with
  | [], _, _ => exact Nat.zero_le _
  | [_], _, _ => exact Nat.le_refl _
  | x :: y :: rest, hn, h =>
    have hx := h x (List.mem_cons_self _ _)
    have hy := h y (List.mem_cons_of_mem _ (List.mem_cons_self _ _))
    rw [List.nodup_cons] at hn
    exact absurd (hx.trans hy.symm ▸ List.mem_cons_self _ _) hn.1

/-- On a constant source every registered pair is the same pair. -/
theorem init_random_device_loop_const_pairs (get_max : Nat → Option Nat) (v max : Nat)
    (hrep : v % EV_MAX + 1 ≠ EV_REP) (hmax : get_max (v % EV_MAX + 1) = some max) :
    ∀ fuel nbits s r,
      init_random_device_loop get_max (const_random v) fuel nbits s = some r →
      (∀ p ∈ s.d.code_bits, p = (v % EV_MAX + 1, v % (max + 1))) →
      ∀ p ∈ r.d.code_bits, p = (v % EV_MAX + 1, v % (max + 1)) := by
  apply init_random_device_loop_induction get_max (const_random v)
    (fun s _ => ∀ p ∈ s.d.code_bits, p = (v % EV_MAX + 1, v % (max + 1)))
  · intro s n h
    exact h
  · intro s n max' h _ hmax'
    simp only [const_random] at hmax' ⊢
    rw [hmax] at hmax'
    have hm : max' = max := (Option.some.inj hmax').symm
    subst hm
    obtain ⟨t1, t2⟩ := type_draw_bounds v
    have hcode : v % (max' + 1) ≤ max' := Nat.lt_succ_iff.mp (Nat.mod_lt _ (Nat.succ_pos _))
    obtain ⟨-, hc⟩ := enable_legal_bits get_max s.d _ _ max' t1 t2 hrep hmax hcode
    intro p hp
    rw [hc] at hp
    split at hp
    · exact h p hp
    · rcases List.mem_cons.mp hp with rfl | hp
      · rfl
      · exact h p hp

/-- C9, refuted as stated: on the constant source 19 every type draw is the
repeat type, `init_random_device` skips it forever and never returns, whatever
the fuel. -/
theorem init_random_device_constant_19_diverges :
    (19 % EV_MAX + 1 = EV_REP) ∧
      ∀ fuel, init_random_device linux_max "fuzzy device 0" (const_random 19) 0 fuel = none := by
  refine ⟨by decide, ?_⟩
  intro fuel
  unfold init_random_device
  exact init_random_device_loop_const_none linux_max 19 (Or.inl (by decide)) fuel _ _

/-- C9, amended: on a random source that always returns `v`, when the type
`(v mod EV_MAX) + 1` is not EV_REP and has a defined maximum code,
`init_random_device` returns (any fuel of at least `nbits` iterations is
enough) and the returned device has exactly one capability, so the set is not
empty; when the type is EV_REP or has no maximum, it never returns. -/
theorem init_random_device_constant_source (get_max : Nat → Option Nat) (name : String)
    (v pos : Nat) :
    ((v % EV_MAX + 1 ≠ EV_REP ∧ get_max (v % EV_MAX + 1) ≠ none) →
      ∀ fuel, v % 64 + 1 ≤ fuel →
        ∃ r, init_random_device get_max name (const_random v) pos fuel = some r ∧
          (enabled_capabilities get_max r.d).length = 1 ∧
          1 ≤ (enabled_capabilities get_max r.d).length) ∧
    ((v % EV_MAX + 1 = EV_REP ∨ get_max (v % EV_MAX + 1) = none) →
      ∀ fuel, init_random_device get_max name (const_random v) pos fuel = none) := by
  constructor
  · rintro ⟨hrep, hmax⟩ fuel hfuel
    obtain ⟨r, hr⟩ : ∃ r, init_random_device get_max name (const_random v) pos fuel = some r := by
      unfold init_random_device
      exact init_random_device_loop_returns get_max (const_random v)
        (fun _ => ⟨hrep, hmax⟩) fuel _ _ hfuel
    obtain ⟨hwf, -, hpos, -, -, -⟩ := init_inv_result get_max name _ pos fuel r hr
    have hge : 1 ≤ r.d.code_bits.length := hpos (Nat.succ_pos _)
    obtain ⟨max, hmax'⟩ := Option.ne_none_iff_exists'.mp hmax
    have hall : ∀ p ∈ r.d.code_bits, p = (v % EV_MAX + 1, v % (max + 1)) := by
      unfold init_random_device at hr
      refine init_random_device_loop_const_pairs get_max v max hrep hmax' fuel _ _ r hr ?_
      intro p hp
      exact absurd hp (List.not_mem_nil p)
    have hle := length_le_one_of_all_eq r.d.code_bits _ hwf.1 hall
    refine ⟨r, hr, ?_, ?_⟩
    · rw [enabled_capabilities_of_well_formed get_max r.d hwf]
      omega
    · rw [enabled_capabilities_of_well_formed get_max r.d hwf]
      exact hge
  · intro hbad fuel
    unfold init_random_device
    exact init_random_device_loop_const_none get_max v hbad fuel _ _

theorem init_random_device_constant_source_witness :
    (0 % EV_MAX + 1 ≠ EV_REP ∧ linux_max (0 % EV_MAX + 1) ≠ none) ∧ 0 % 64 + 1 ≤ 1 ∧
      (∃ r, init_random_device linux_max "fuzzy device 0" (const_random 0) 0 1 = some r ∧
        (enabled_capabilities linux_max r.d).length = 1 ∧
        1 ≤ (enabled_capabilities linux_max r.d).length) ∧
      (30 % EV_MAX + 1 = EV_REP ∨ linux_max (30 % EV_MAX + 1) = none) ∧
      ∀ fuel, init_random_device linux_max "fuzzy device 0" (const_random 30) 0 fuel = none :=
  ⟨by decide, by decide,
    (init_random_device_constant_source linux_max "fuzzy device 0" 0 0).1 (by decide) 1
      (by decide),
    by decide,
    (init_random_device_constant_source linux_max "fuzzy device 0" 30 0).2 (by decide)⟩

/-- C10: for every capability set, the flattened list `send_events` builds
contains exactly the pairs (type, code) of the set with type in [1, EV_MAX]
and a defined maximum code, each once, in strictly ascending lexicographic
order. It is determined by the capability set alone: two devices with the same
capabilities give the same list, and whatever the draws, the clock and the
sink, the events of a run are taken from this list. -/
theorem send_events_bits_sorted_exact (get_max : Nat → Option Nat) (d : libevdev) :
    (∀ type code, (type, code) ∈ send_events_bits get_max d ↔
      1 ≤ type ∧ type ≤ EV_MAX ∧ (∃ max, get_max type = some max) ∧
        libevdev_has_event_code get_max d type code = true) ∧
    (send_events_bits get_max d).Nodup ∧
    (send_events_bits get_max d).Pairwise
      (fun p q => p.1 < q.1 ∨ (p.1 = q.1 ∧ p.2 < q.2)) ∧
    (∀ d', (∀ type code, 1 ≤ type → libevdev_has_event_code get_max d' type code
        = libevdev_has_event_code get_max d type code) →
      send_events_bits get_max d' = send_events_bits get_max d) ∧
    (∀ uinput random clock pos r, send_events get_max d uinput random clock pos = some r →
      ∀ e ∈ written uinput r, e.type ≠ EV_SYN →
        (e.type, e.code) ∈ send_events_bits get_max d) := by
  refine ⟨mem_send_events_bits get_max d, nodup_send_events_bits get_max d,
    pairwise_send_events_bits get_max d, send_events_bits_congr get_max d, ?_⟩
  · intro uinput random clock pos r h e he hsyn
    obtain ⟨hw, -, -, -⟩ := send_events_spec get_max d uinput random clock pos r h
    rw [hw] at he
    rcases mem_plan_writes _ e he with rfl | ⟨f, hf, hef⟩
    · exact absurd rfl hsyn
    · exact ((session_plan_spec _ random _ _ f hf).2 e hef).1

theorem send_events_bits_sorted_exact_witness :
    send_events_bits linux_max demo_init_state.d = [(1, 5), (3, 7)] ∧
      ((3, 7) ∈ send_events_bits linux_max demo_init_state.d ↔
        1 ≤ 3 ∧ 3 ≤ EV_MAX ∧ (∃ max, linux_max 3 = some max) ∧
          libevdev_has_event_code linux_max demo_init_state.d 3 7 = true) ∧
      send_events_bits linux_max (libevdev_set_name demo_init_state.d "fuzzy device 1")
        = send_events_bits linux_max demo_init_state.d ∧
      (∀ e ∈ written good_sink demo_send_state, e.type ≠ EV_SYN →
        (e.type, e.code) ∈ send_events_bits linux_max demo_init_state.d) :=
  ⟨demo_send_bits,
    (send_events_bits_sorted_exact linux_max demo_init_state.d).1 3 7,
    (send_events_bits_sorted_exact linux_max demo_init_state.d).2.2.2.1
      (libevdev_set_name demo_init_state.d "fuzzy device 1") (fun _ _ _ => rfl),
    (send_events_bits_sorted_exact linux_max demo_init_state.d).2.2.2.2 good_sink
      (replay demo_send_draws) second_clock 0 demo_send_state demo_send_run⟩

/-! ## Ranges of absolute axes -/

theorem enable_legal_abs_info (get_max : Nat → Option Nat) (d : libevdev) (type code max : Nat)
    (h1 : 1 ≤ type) (h2 : type ≤ EV_MAX) (h3 : type ≠ EV_REP)
    (hmax : get_max type = some max) (hcode : code ≤ max) :
    (libevdev_enable_event_code get_max d type code
        (if type = EV_ABS then some abs else none)).abs_info
      = (if type = EV_ABS then (code, abs) :: d.abs_info.filter (fun p => p.1 ≠ code)
         else d.abs_info) := by
  have h0 : type ≠ EV_SYN := by
    intro h
    rw [h] at h1
    exact absurd h1 (by decide)
  have h5 : ¬ max < code := Nat.not_lt.mpr hcode
  unfold libevdev_enable_event_code
  rw [enable_event_type_legal get_max d type max h1 h2 hmax]
  by_cases habs : type = EV_ABS
  · subst habs
    simp [hmax, h0, h5]
  · simp [hmax, h0, h3, h5, habs]

theorem abs_inv_loop (get_max : Nat → Option Nat) (random : Nat → Nat) :
    ∀ fuel nbits s r, init_random_device_loop get_max random fuel nbits s = some r →
      abs_inv s → abs_inv r := by
  apply init_random_device_loop_induction get_max random (fun s _ => abs_inv s)
  · intro s n h
    exact h
  · intro s n max h hrep hmax
    obtain ⟨hA, hB, hC⟩ := h
    obtain ⟨t1, t2⟩ := type_draw_bounds (random s.pos)
    have hcode : random (s.pos + 1) % (max + 1) ≤ max :=
      Nat.lt_succ_iff.mp (Nat.mod_lt _ (Nat.succ_pos max))
    obtain ⟨-, hc⟩ := enable_legal_bits get_max s.d _ _ max t1 t2 hrep hmax hcode
    have ha := enable_legal_abs_info get_max s.d _ _ max t1 t2 hrep hmax hcode
    have hsub : ∀ q, q ∈ s.d.code_bits →
        q ∈ (if (random s.pos % EV_MAX + 1, random (s.pos + 1) % (max + 1)) ∈ s.d.code_bits
          then s.d.code_bits
          else (random s.pos % EV_MAX + 1, random (s.pos + 1) % (max + 1)) :: s.d.code_bits) := by
      intro q hq
      split
      · exact hq
      · exact List.mem_cons_of_mem _ hq
    have hself : (random s.pos % EV_MAX + 1, random (s.pos + 1) % (max + 1)) ∈
        (if (random s.pos % EV_MAX + 1, random (s.pos + 1) % (max + 1)) ∈ s.d.code_bits
          then s.d.code_bits
          else (random s.pos % EV_MAX + 1, random (s.pos + 1) % (max + 1)) :: s.d.code_bits) := by
      split
      · assumption
      · exact List.mem_cons_self _ _
    refine ⟨?_, ?_, ?_⟩
    · intro p hp
      show p.2 = abs ∧ (EV_ABS, p.1) ∈ (libevdev_enable_event_code get_max s.d _ _ _).code_bits
      rw [hc]
      change p ∈ (libevdev_enable_event_code get_max s.d _ _ _).abs_info at hp
      rw [ha] at hp
      by_cases habs : random s.pos % EV_MAX + 1 = EV_ABS
      · rw [if_pos habs] at hp
        rcases List.mem_cons.mp hp with rfl | hp
        · refine ⟨rfl, ?_⟩
          have := hself
          rw [habs] at this ⊢
          exact this
        · have hp' := (List.mem_filter.mp hp).1
          exact ⟨(hA p hp').1, hsub _ (hA p hp').2⟩
      · rw [if_neg habs] at hp
        exact ⟨(hA p hp).1, hsub _ (hA p hp).2⟩
    · intro c hm
      show (c, abs) ∈ (libevdev_enable_event_code get_max s.d _ _ _).abs_info
      rw [ha]
      change (EV_ABS, c) ∈ (libevdev_enable_event_code get_max s.d _ _ _).code_bits at hm
      rw [hc] at hm
      have hm' : (EV_ABS, c) = (random s.pos % EV_MAX + 1, random (s.pos + 1) % (max + 1)) ∨
          (EV_ABS, c) ∈ s.d.code_bits := by
        split at hm
        · exact Or.inr hm
        · exact List.mem_cons.mp hm
      by_cases habs : random s.pos % EV_MAX + 1 = EV_ABS
      · rw [if_pos habs]
        by_cases hcc : c = random (s.pos + 1) % (max + 1)
        · rw [hcc]
          exact List.mem_cons_self _ _
        · rcases hm' with heq | hold
          · rw [Prod.mk.injEq] at heq
            exact absurd heq.2 hcc
          · apply List.mem_cons_of_mem
            rw [List.mem_filter]
            exact ⟨hB c hold, by simpa using hcc⟩
      · rw [if_neg habs]
        rcases hm' with heq | hold
        · rw [Prod.mk.injEq] at heq
          exact absurd heq.1.symm habs
        · exact hB c hold
    · intro c hc'
      rcases List.mem_append.mp hc' with hc' | hc'
      · exact hC c hc'
      · rw [List.mem_singleton] at hc'
        subst hc'
        rfl

theorem abs_inv_result (get_max : Nat → Option Nat) (name : String) (random : Nat → Nat)
    (pos fuel : Nat) (r : init_state)
    (h : init_random_device get_max name random pos fuel = some r) : abs_inv r := by
  unfold init_random_device at h
  refine abs_inv_loop get_max random fuel _ _ r h ⟨?_, ?_, ?_⟩
  · intro p hp
    exact absurd hp (List.not_mem_nil p)
  · intro c hc
    exact absurd hc (List.not_mem_nil _)
  · intro c hc
    exact absurd hc (List.not_mem_nil c)

theorem get_abs_info_of_mem (get_max : Nat → Option Nat) (d : libevdev) (code : Nat)
    (hcode : libevdev_has_event_code get_max d EV_ABS code = true)
    (hall : ∀ p ∈ d.abs_info, p.2 = abs) (hmem : (code, abs) ∈ d.abs_info) :
    libevdev_get_abs_info get_max d code = some abs := by
  unfold libevdev_get_abs_info
  rw [if_pos hcode]
  cases hf : d.abs_info.find? (fun p => decide (p.1 = code)) with
  | none =>
    rw [List.find?_eq_none] at hf
    exact absurd (hf _ hmem) (by simp)
  | some p =>
    have := hall p (List.mem_of_find?_eq_some hf)
    simp [this]

/-- C14: `init_random_device` passes the range minimum 0, maximum 100 to a
registration exactly when the type is EV_ABS and passes no range for any other
type; on the returned device every registered EV_ABS code carries the range
[0, 100], and the device holds a range for registered EV_ABS codes only. -/
theorem init_random_device_abs_range (get_max : Nat → Option Nat) (name : String)
    (random : Nat → Nat) (pos fuel : Nat) (r : init_state)
    (h : init_random_device get_max name random pos fuel = some r) :
    (∀ c ∈ r.calls,
        (c.2.2 = some { minimum := 0, maximum := 100 } ↔ c.1 = EV_ABS) ∧
        (c.1 ≠ EV_ABS → c.2.2 = none)) ∧
      (∀ code, (EV_ABS, code) ∈ enabled_capabilities get_max r.d →
        libevdev_get_abs_info get_max r.d code = some { minimum := 0, maximum := 100 }) ∧
      (∀ p ∈ r.d.abs_info, p.2 = { minimum := 0, maximum := 100 } ∧
        (EV_ABS, p.1) ∈ enabled_capabilities get_max r.d) := by
  obtain ⟨hA, hB, hC⟩ := abs_inv_result get_max name random pos fuel r h
  obtain ⟨hwf, -, -, -, -, -⟩ := init_inv_result get_max name random pos fuel r h
  rw [enabled_capabilities_of_well_formed get_max r.d hwf]
  refine ⟨?_, ?_, ?_⟩
  · intro c hc
    have := hC c hc
    by_cases habs : c.1 = EV_ABS
    · rw [if_pos habs] at this
      exact ⟨⟨fun _ => habs, fun _ => this⟩, fun hne => absurd habs hne⟩
    · rw [if_neg habs] at this
      refine ⟨⟨fun hs => ?_, fun ha => absurd ha habs⟩, fun _ => this⟩
      rw [this] at hs
      exact absurd hs (by simp)
  · intro code hm
    have hcode : libevdev_has_event_code get_max r.d EV_ABS code = true := by
      have := (mem_enabled_capabilities get_max r.d EV_ABS code).mp
        (by rw [enabled_capabilities_of_well_formed get_max r.d hwf]; exact hm)
      exact this.2
    exact get_abs_info_of_mem get_max r.d code hcode (fun p hp => (hA p hp).1) (hB code hm)
  · intro p hp
    exact hA p hp

theorem init_random_device_abs_range_witness :
    init_random_device linux_max "fuzzy device 0" (replay demo_draws) 0 10
        = some demo_init_state ∧
      (∀ c ∈ demo_init_state.calls,
        (c.2.2 = some { minimum := 0, maximum := 100 } ↔ c.1 = EV_ABS) ∧
        (c.1 ≠ EV_ABS → c.2.2 = none)) ∧
      (∀ code, (EV_ABS, code) ∈ enabled_capabilities linux_max demo_init_state.d →
        libevdev_get_abs_info linux_max demo_init_state.d code
          = some { minimum := 0, maximum := 100 }) ∧
      (∀ p ∈ demo_init_state.d.abs_info, p.2 = { minimum := 0, maximum := 100 } ∧
        (EV_ABS, p.1) ∈ enabled_capabilities linux_max demo_init_state.d) :=
  ⟨demo_init_run,
    init_random_device_abs_range linux_max "fuzzy device 0" (replay demo_draws) 0 10
      demo_init_state demo_init_run⟩

/-! ## The scratch array on generated devices -/

theorem send_events_bits_perm (get_max : Nat → Option Nat) (d : libevdev)
    (hwf : well_formed get_max d) : (send_events_bits get_max d).Perm d.code_bits := by
  rw [List.perm_ext_iff_of_nodup (nodup_send_events_bits get_max d) hwf.1]
  rintro ⟨t, c⟩
  rw [mem_send_events_bits]
  constructor
  · rintro ⟨h1, -, -, hc⟩
    have := (mem_enabled_capabilities get_max d t c).mpr ⟨h1, hc⟩
    rw [enabled_capabilities_of_well_formed get_max d hwf] at this
    exact this
  · intro hm
    obtain ⟨h1, h2, -, max, hmax, -⟩ := hwf.2 (t, c) hm
    have hm' : (t, c) ∈ enabled_capabilities get_max d := by
      rw [enabled_capabilities_of_well_formed get_max d hwf]
      exact hm
    exact ⟨h1, h2, ⟨max, hmax⟩, ((mem_enabled_capabilities get_max d t c).mp hm').2⟩

/-- C17: on every device `init_random_device` returns, the flattened list of
`send_events` holds exactly the device's capabilities, so it is non-empty and
has at most 64 entries; it fits the scratch array of `EV_MAX * KEY_MAX`
entries, every run of `send_events` on the device returns (no division by
zero, no store past the array), and every index `x % nbits` lies in
`[0, nbits)`. -/
theorem send_events_bits_bounds (get_max : Nat → Option Nat) (name : String)
    (random : Nat → Nat) (pos fuel : Nat) (r : init_state)
    (h : init_random_device get_max name random pos fuel = some r) :
    (send_events_bits get_max r.d).length = (enabled_capabilities get_max r.d).length ∧
      1 ≤ (send_events_bits get_max r.d).length ∧
      (send_events_bits get_max r.d).length ≤ 64 ∧
      (send_events_bits get_max r.d).length ≤ EV_MAX * KEY_MAX ∧
      (send_events_bits get_max r.d).length ≠ 0 ∧
      (∀ x : Nat, 0 ≤ x % (send_events_bits get_max r.d).length ∧
        x % (send_events_bits get_max r.d).length < (send_events_bits get_max r.d).length) ∧
      (∀ uinput random' clock pos',
        ∃ s, send_events get_max r.d uinput random' clock pos' = some s) := by
  obtain ⟨hwf, hlen, hpos, -, -, -⟩ := init_inv_result get_max name random pos fuel r h
  have hperm := (send_events_bits_perm get_max r.d hwf).length_eq
  have h64 : random pos % 64 < 64 := Nat.mod_lt _ (by decide)
  have hge : 1 ≤ r.d.code_bits.length := hpos (by omega)
  have hcap : (64 : Nat) ≤ EV_MAX * KEY_MAX := by decide
  rw [enabled_capabilities_of_well_formed get_max r.d hwf, hperm]
  refine ⟨rfl, hge, by omega, by omega, by omega, ?_, ?_⟩
  · intro x
    exact ⟨Nat.zero_le _, Nat.mod_lt _ (by omega)⟩
  · intro uinput random' clock pos'
    exact send_events_returns get_max r.d uinput random' clock pos'
      (by rw [hperm]; omega) (by rw [hperm]; omega)

set_option maxRecDepth 100000 in
theorem send_events_bits_bounds_witness :
    init_random_device linux_max "fuzzy device 0" (replay demo_draws) 0 10
        = some demo_init_state ∧
      send_events_bits linux_max demo_init_state.d = [(1, 5), (3, 7)] ∧
      (send_events_bits linux_max demo_init_state.d).length
        = (enabled_capabilities linux_max demo_init_state.d).length ∧
      1 ≤ (send_events_bits linux_max demo_init_state.d).length ∧
      (send_events_bits linux_max demo_init_state.d).length ≤ 64 ∧
      (send_events_bits linux_max demo_init_state.d).length ≤ EV_MAX * KEY_MAX ∧
      (send_events_bits linux_max demo_init_state.d).length ≠ 0 ∧
      (∀ x : Nat, 0 ≤ x % (send_events_bits linux_max demo_init_state.d).length ∧
        x % (send_events_bits linux_max demo_init_state.d).length
          < (send_events_bits linux_max demo_init_state.d).length) ∧
      (∀ uinput random' clock pos',
        ∃ s, send_events linux_max demo_init_state.d uinput random' clock pos' = some s) :=
  ⟨demo_init_run, demo_send_bits,
    send_events_bits_bounds linux_max "fuzzy device 0" (replay demo_draws) 0 10
      demo_init_state demo_init_run⟩

/-! ## The trace against the sink writes -/

theorem plan_lines_triples (clock : Nat → timespec) (tp_last : timespec) :
    ∀ (frames : List (List input_event)) (clk : Nat),
      (plan_lines clock tp_last clk frames).map line_triple
        = (plan_writes frames).map event_triple := by
  intro frames
  induction frames with
  | nil => intro clk; rfl
  | cons f fs ih =>
    intro clk
    have hf : (f.map (event_line (clock clk))).map line_triple = f.map event_triple := by
      rw [List.map_map]
      rfl
    have ih' := ih (clk + 1)
    unfold plan_writes at ih' ⊢
    simp only [plan_lines, List.flatMap_cons, List.map_append, hf, ih']
    rfl

/-- C15: in every run of `send_events` the (type, code, value) triples of the
printed trace lines, event lines and synchronization lines alike, are, in the
same order, the triples passed to `write_event`: as many lines as writes, and
the k-th line prints the k-th write. -/
theorem send_events_trace_matches_writes (get_max : Nat → Option Nat) (d : libevdev)
    (uinput : libevdev_uinput) (random : Nat → Nat) (clock : Nat → timespec) (pos : Nat) :
    ((send_events_bits get_max d).length ≠ 0 →
      (send_events_bits get_max d).length ≤ EV_MAX * KEY_MAX →
      ∃ r, send_events get_max d uinput random clock pos = some r) ∧
    ∀ r, send_events get_max d uinput random clock pos = some r →
      r.out.map line_triple = (written uinput r).map (fun e => (e.type, e.code, e.value)) ∧
        r.out.length = (written uinput r).length := by
  refine ⟨send_events_returns get_max d uinput random clock pos, ?_⟩
  intro r h
  obtain ⟨hw, ho, -, -⟩ := send_events_spec get_max d uinput random clock pos r h
  have key := plan_lines_triples clock (clock 0)
    (session_plan (send_events_bits get_max d) random (random pos % 200) (pos + 1)) 1
  rw [← ho, ← hw] at key
  refine ⟨key, ?_⟩
  have := congrArg List.length key
  simpa using this

theorem send_events_trace_matches_writes_witness :
    (∃ r, send_events linux_max demo_init_state.d good_sink (replay demo_send_draws)
        second_clock 0 = some r) ∧
      send_events linux_max demo_init_state.d good_sink (replay demo_send_draws)
        second_clock 0 = some demo_send_state ∧
      demo_send_state.out.map line_triple
        = (written good_sink demo_send_state).map (fun e => (e.type, e.code, e.value)) ∧
      demo_send_state.out.length = (written good_sink demo_send_state).length :=
  ⟨(send_events_trace_matches_writes linux_max demo_init_state.d good_sink
      (replay demo_send_draws) second_clock 0).1
      (by rw [demo_send_bits]; decide) (by rw [demo_send_bits]; decide),
    demo_send_run,
    (send_events_trace_matches_writes linux_max demo_init_state.d good_sink
      (replay demo_send_draws) second_clock 0).2 demo_send_state demo_send_run⟩

/-! ## Timestamps within a frame -/

theorem plan_groups_flatten (clock : Nat → timespec) (tp_last : timespec) :
    ∀ (frames : List (List input_event)) (clk : Nat),
      (plan_groups clock tp_last clk frames).flatten = plan_lines clock tp_last clk frames := by
  intro frames
  induction frames with
  | nil => intro clk; rfl
  | cons f fs ih =>
    intro clk
    simp only [plan_groups, plan_lines, List.flatten_cons, ih (clk + 1), List.append_assoc]

theorem plan_groups_length (clock : Nat → timespec) (tp_last : timespec) :
    ∀ (frames : List (List input_event)) (clk : Nat),
      (plan_groups clock tp_last clk frames).length = frames.length := by
  intro frames
  induction frames with
  | nil => intro clk; rfl
  | cons f fs ih =>
    intro clk
    simp only [plan_groups, List.length_cons, ih (clk + 1)]

theorem plan_groups_get (clock : Nat → timespec) (tp_last : timespec) :
    ∀ (frames : List (List input_event)) (clk k : Nat) (g : List trace_line),
      (plan_groups clock tp_last clk frames)[k]? = some g →
      ∃ f : List input_event,
        g = f.map (event_line (clock (clk + k)))
          ++ [sync_line (clock (clk + k))
                (timespec_usec (clock (clk + k)) - timespec_usec tp_last)] := by
  intro frames
  induction frames with
  | nil =>
    intro clk k g h
    simp [plan_groups] at h
  | cons f fs ih =>
    intro clk k g h
    cases k with
    | zero =>
      simp only [plan_groups, List.getElem?_cons_zero, Option.some.injEq] at h
      exact ⟨f, h.symm⟩
    | succ k =>
      simp only [plan_groups, List.getElem?_cons_succ] at h
      obtain ⟨f', hf'⟩ := ih (clk + 1) k g h
      refine ⟨f', ?_⟩
      rw [show clk + (k + 1) = clk + 1 + k by omega]
      exact hf'

/-- C16: the trace of every run of `send_events` splits into one group of
lines per frame; the k-th group is event lines followed by one synchronization
line, and every line of the group, the synchronization line included, carries
the seconds and microseconds of the single clock reading taken at the start of
that frame (reading `k + 1`, reading 0 being the one before the loop). -/
theorem send_events_frame_timestamps (get_max : Nat → Option Nat) (d : libevdev)
    (uinput : libevdev_uinput) (random : Nat → Nat) (clock : Nat → timespec) (pos : Nat) :
    ((send_events_bits get_max d).length ≠ 0 →
      (send_events_bits get_max d).length ≤ EV_MAX * KEY_MAX →
      ∃ r, send_events get_max d uinput random clock pos = some r) ∧
    ∀ r, send_events get_max d uinput random clock pos = some r →
      ∃ groups : List (List trace_line),
        groups.length = random pos % 200 ∧ r.out = groups.flatten ∧
        ∀ k g, groups[k]? = some g →
          (∀ l ∈ g, line_stamp l = ((clock (k + 1)).tv_sec, (clock (k + 1)).tv_nsec / 1000)) ∧
          ∃ (events : List trace_line) (dt : Int),
            g = events ++ [trace_line.sync (clock (k + 1)).tv_sec
              ((clock (k + 1)).tv_nsec / 1000) dt] ∧
            ∀ l ∈ events, ∃ type code value,
              l = trace_line.event (clock (k + 1)).tv_sec ((clock (k + 1)).tv_nsec / 1000)
                type code value := by
  refine ⟨send_events_returns get_max d uinput random clock pos, ?_⟩
  intro r h
  obtain ⟨-, ho, -, -⟩ := send_events_spec get_max d uinput random clock pos r h
  refine ⟨plan_groups clock (clock 0) 1
    (session_plan (send_events_bits get_max d) random (random pos % 200) (pos + 1)), ?_, ?_, ?_⟩
  · rw [plan_groups_length, session_plan_length]
  · rw [plan_groups_flatten, ho]
  · intro k g hg
    obtain ⟨f, hf⟩ := plan_groups_get clock (clock 0) _ 1 k g hg
    rw [show 1 + k = k + 1 by omega] at hf
    subst hf
    constructor
    · intro l hl
      rcases List.mem_append.mp hl with hl | hl
      · obtain ⟨e, -, rfl⟩ := List.mem_map.mp hl
        rfl
      · rw [List.mem_singleton] at hl
        subst hl
        rfl
    · refine ⟨f.map (event_line (clock (k + 1))), _, rfl, ?_⟩
      intro l hl
      obtain ⟨e, -, rfl⟩ := List.mem_map.mp hl
      exact ⟨e.type, e.code, e.value, rfl⟩

theorem send_events_frame_timestamps_witness :
    (∃ r, send_events linux_max demo_init_state.d good_sink (replay demo_send_draws)
        second_clock 0 = some r) ∧
      send_events linux_max demo_init_state.d good_sink (replay demo_send_draws)
        second_clock 0 = some demo_send_state ∧
      ∃ groups : List (List trace_line),
        groups.length = replay demo_send_draws 0 % 200 ∧ demo_send_state.out = groups.flatten ∧
        ∀ k g, groups[k]? = some g →
          (∀ l ∈ g, line_stamp l
            = ((second_clock (k + 1)).tv_sec, (second_clock (k + 1)).tv_nsec / 1000)) ∧
          ∃ (events : List trace_line) (dt : Int),
            g = events ++ [trace_line.sync (second_clock (k + 1)).tv_sec
              ((second_clock (k + 1)).tv_nsec / 1000) dt] ∧
            ∀ l ∈ events, ∃ type code value,
              l = trace_line.event (second_clock (k + 1)).tv_sec
                ((second_clock (k + 1)).tv_nsec / 1000) type code value :=
  ⟨(send_events_frame_timestamps linux_max demo_init_state.d good_sink
      (replay demo_send_draws) second_clock 0).1
      (by rw [demo_send_bits]; decide) (by rw [demo_send_bits]; decide),
    demo_send_run,
    (send_events_frame_timestamps linux_max demo_init_state.d good_sink
      (replay demo_send_draws) second_clock 0).2 demo_send_state demo_send_run⟩

/-! ## The unit of the elapsed time -/

set_option maxRecDepth 100000 in
/-- C11: evaluation of `send_events` on two empty frames and a clock that reads
10 s before the loop, 10 s in the first frame and 11 s in the second. The
second frame comes 1000 milliseconds after the first, and the synchronization
line prints `+1000000ms`: the number before `ms` is the elapsed time in
microseconds. -/
theorem send_events_prints_microseconds_as_ms :
    (send_events linux_max demo_init_state.d good_sink (replay empty_frames_draws)
        stall_clock 0).map (fun r => render_trace some_type_name some_code_name r.out)
      = some ("E: 10.000000 0000 0000 0000    # ------------ SYN_REPORT (0) ---------- +0ms\n"
          ++ "E: 11.000000 0000 0000 0000    # ------------ SYN_REPORT (0) ---------- +1000000ms\n") ∧
      timespec_usec (stall_clock 2) - timespec_usec (stall_clock 1) = 1000000 ∧
      (timespec_usec (stall_clock 2) - timespec_usec (stall_clock 1)) / 1000 = 1000 := by
  refine ⟨?_, by decide, by decide⟩
  decide

/-! ## The text of a trace line -/

theorem digit_value_digitChar : ∀ d, d < 16 → digit_value (Nat.digitChar d) = d := by
  decide

theorem isDigit_digitChar : ∀ d, d < 10 → (Nat.digitChar d).isDigit = true := by
  decide

theorem foldl_toDigitsCore (b : Nat) (hb : 2 ≤ b) (hb16 : b ≤ 16) :
    ∀ fuel n acc, n < fuel →
      (Nat.toDigitsCore b fuel n acc).foldl (fun a c => a * b + digit_value c) 0
        = acc.foldl (fun a c => a * b + digit_value c) n := by
  intro fuel
  induction fuel with
  | zero => intro n acc h; exact absurd h (Nat.not_lt_zero _)
  | succ fuel ih =>
    intro n acc h
    have hmod : n % b < 16 := Nat.lt_of_lt_of_le (Nat.mod_lt _ (by omega)) hb16
    simp only [Nat.toDigitsCore]
    split
    · rename_i h0
      simp only [List.foldl_cons, digit_value_digitChar _ hmod, Nat.zero_mul, Nat.zero_add]
      have : n % b = n := Nat.mod_eq_of_lt ((Nat.div_eq_zero_iff (by omega)).mp h0)
      rw [this]
    · rename_i h0
      have hlt : n / b < fuel := by
        have : n / b < n := Nat.div_lt_self (by
          rcases Nat.eq_zero_or_pos n with hz | hp
          · subst hz; simp at h0
          · exact hp) hb
        omega
      rw [ih (n / b) _ hlt]
      simp only [List.foldl_cons, digit_value_digitChar _ hmod, Nat.div_add_mod']

theorem parse_digits_toDigits (b : Nat) (hb : 2 ≤ b) (hb16 : b ≤ 16) (n : Nat) :
    parse_digits b (Nat.toDigits b n) = n := by
  unfold parse_digits Nat.toDigits
  rw [foldl_toDigitsCore b hb hb16 (n + 1) n [] (Nat.lt_succ_self n)]
  rfl

theorem parse_digits_zeros (b k : Nat) (l : List Char) :
    parse_digits b (List.replicate k '0' ++ l) = parse_digits b l := by
  unfold parse_digits
  induction k with
  | zero => rfl
  | succ k ih =>
    have hz : 0 * b + digit_value '0' = 0 := by
      rw [Nat.zero_mul, Nat.zero_add]
      decide
    rw [List.replicate_succ, List.cons_append, List.foldl_cons, hz]
    exact ih

theorem isDigit_toDigitsCore :
    ∀ fuel n acc, (∀ c ∈ acc, c.isDigit = true) →
      ∀ c ∈ Nat.toDigitsCore 10 fuel n acc, c.isDigit = true := by
  intro fuel
  induction fuel with
  | zero =>
    intro n acc h c hc
    exact h c hc
  | succ fuel ih =>
    intro n acc h c hc
    have hd : (Nat.digitChar (n % 10)).isDigit = true :=
      isDigit_digitChar _ (Nat.mod_lt _ (by decide))
    have hacc : ∀ c ∈ Nat.digitChar (n % 10) :: acc, c.isDigit = true := by
      intro c hc
      rcases List.mem_cons.mp hc with rfl | hc
      · exact hd
      · exact h c hc
    simp only [Nat.toDigitsCore] at hc
    split at hc
    · exact hacc c hc
    · exact ih _ _ hacc c hc

theorem isDigit_repr (n : Nat) : ∀ c ∈ (Nat.repr n).data, c.isDigit = true := by
  intro c hc
  exact isDigit_toDigitsCore (n + 1) n [] (fun c hc => absurd hc (List.not_mem_nil c)) c hc

theorem parse_digits_repr (n : Nat) : parse_digits 10 (Nat.repr n).data = n :=
  parse_digits_toDigits 10 (by decide) (by decide) n

theorem pad_left_data (c : Char) (w : Nat) (s : String) :
    (pad_left c w s).data = List.replicate (w - s.length) c ++ s.data := rfl

theorem pad_left_length (c : Char) (w : Nat) (s : String) (h : s.length ≤ w) :
    (pad_left c w s).length = w := by
  unfold pad_left
  rw [String.length_append, String.length_mk, List.length_replicate]
  omega

theorem fmt_06lu_length (n : Nat) (h : n < 1000000) : (fmt_06lu n).length = 6 :=
  pad_left_length _ _ _ (Nat.repr_length n 6 (by decide) h)

theorem toDigits16_length (n : Nat) (h : n ≤ 0xffff) : (Nat.toDigits 16 n).length ≤ 4 :=
  Nat.toDigitsCore_length 16 (by decide) (n + 1) n 4 (by omega) (by decide)

theorem fmt_04x_length (n : Nat) (h : n ≤ 0xffff) : (fmt_04x n).length = 4 :=
  pad_left_length _ _ _ (by rw [String.length_mk]; exact toDigits16_length n h)

theorem fmt_04d_eq (v : Int) (h : 0 ≤ v) : fmt_04d v = pad_left '0' 4 (Nat.repr v.natAbs) := by
  unfold fmt_04d
  rw [if_neg (not_lt.mpr h)]

theorem fmt_04d_length (v : Int) (h0 : 0 ≤ v) (h : v < 50) : (fmt_04d v).length = 4 := by
  rw [fmt_04d_eq v h0]
  exact pad_left_length _ _ _ (Nat.repr_length _ 4 (by decide) (by omega))

theorem fmt_06lu_parse (n : Nat) : parse_digits 10 (fmt_06lu n).data = n := by
  unfold fmt_06lu
  rw [pad_left_data, parse_digits_zeros, parse_digits_repr]

theorem fmt_04x_parse (n : Nat) : parse_digits 16 (fmt_04x n).data = n := by
  unfold fmt_04x
  rw [pad_left_data, parse_digits_zeros]
  exact parse_digits_toDigits 16 (by decide) (by decide) n

theorem fmt_04d_parse (v : Int) (h : 0 ≤ v) :
    ((parse_digits 10 (fmt_04d v).data : Nat) : Int) = v := by
  rw [fmt_04d_eq v h, pad_left_data, parse_digits_zeros, parse_digits_repr]
  omega

/-- The characters of an event trace line, field by field. -/
theorem render_event_data (type_name : Nat → Option String)
    (code_name : Nat → Nat → Option String) (tv_sec usec type code : Nat) (value : Int) :
    ∃ tail : List Char,
      (render type_name code_name (trace_line.event tv_sec usec type code value)).data
        = ['E', ':', ' '] ++ ((Nat.repr tv_sec).data ++ ('.' :: ((fmt_06lu usec).data
            ++ (' ' :: ((fmt_04x type).data ++ (' ' :: ((fmt_04x code).data
            ++ (' ' :: ((fmt_04d value).data ++ tail))))))))) := by
  refine ⟨"    ".data ++ ("# ".data ++ ((fmt_s (type_name type)).data ++ (" / ".data
    ++ ((fmt_left20 (code_name type code)).data ++ (" ".data ++ ((fmt_d value).data
    ++ "\n".data)))))), ?_⟩
  simp only [render, fmt_lu, String.data_append, List.append_assoc]
  rfl

/-- Parsing the fields before `#` of an event trace line gives back the
tuple that was printed. -/
theorem parse_render_event (type_name : Nat → Option String)
    (code_name : Nat → Nat → Option String) (tv_sec usec type code : Nat) (value : Int)
    (husec : usec < 1000000) (htype : type ≤ 0xffff) (hcode : code ≤ 0xffff)
    (hv0 : 0 ≤ value) (hv : value < 50) :
    parse_event_line (render type_name code_name (trace_line.event tv_sec usec type code value))
      = (tv_sec, usec, type, code, value) := by
  obtain ⟨tail, hdata⟩ := render_event_data type_name code_name tv_sec usec type code value
  have hdot : ¬ (Char.isDigit '.' = true) := by decide
  have l6 : (fmt_06lu usec).data.length = 6 := by
    rw [String.length_data]; exact fmt_06lu_length usec husec
  have lt4 : (fmt_04x type).data.length = 4 := by
    rw [String.length_data]; exact fmt_04x_length type htype
  have lc4 : (fmt_04x code).data.length = 4 := by
    rw [String.length_data]; exact fmt_04x_length code hcode
  have lv4 : (fmt_04d value).data.length = 4 := by
    rw [String.length_data]; exact fmt_04d_length value hv0 hv
  unfold parse_event_line
  simp only [hdata]
  have e0 : List.drop 3 (['E', ':', ' '] ++ ((Nat.repr tv_sec).data ++ ('.' :: ((fmt_06lu usec).data
            ++ (' ' :: ((fmt_04x type).data ++ (' ' :: ((fmt_04x code).data
            ++ (' ' :: ((fmt_04d value).data ++ tail)))))))))) =
        (Nat.repr tv_sec).data ++ ('.' :: ((fmt_06lu usec).data
            ++ (' ' :: ((fmt_04x type).data ++ (' ' :: ((fmt_04x code).data
            ++ (' ' :: ((fmt_04d value).data ++ tail)))))))) := rfl
  rw [e0, List.takeWhile_append_of_pos (isDigit_repr tv_sec),
    List.dropWhile_append_of_pos (isDigit_repr tv_sec),
    List.takeWhile_cons_of_neg hdot, List.dropWhile_cons_of_neg hdot, List.append_nil,
    List.drop_one, List.tail_cons,
    List.take_left' l6, List.drop_left' l6, List.drop_one, List.tail_cons,
    List.take_left' lt4, List.drop_left' lt4, List.drop_one, List.tail_cons,
    List.take_left' lc4, List.drop_left' lc4, List.drop_one, List.tail_cons,
    List.take_left' lv4,
    parse_digits_repr, fmt_06lu_parse, fmt_04x_parse, fmt_04x_parse, fmt_04d_parse value hv0]

theorem linux_max_le : ∀ type max, linux_max type = some max → max ≤ 0xffff := by
  intro type max h
  unfold linux_max at h
  split at h <;> simp at h <;> omega

theorem repr_small_length : ∀ n, n < 50 → (Nat.repr n).length = if n < 10 then 1 else 2 := by
  decide

theorem fmt_d_eq (v : Int) (h : 0 ≤ v) : fmt_d v = Nat.repr v.natAbs := by
  unfold fmt_d
  rw [if_neg (not_lt.mpr h)]

set_option maxRecDepth 100000 in
/-- C12, refuted as stated: the run `failing_draws` emits the events
(EV_ABS, 7, 37) and (EV_ABS, 7, 5) in one frame. The value repeated at the end
of the line is printed by `%d` without padding: it takes two columns on the
first line and one on the second, so not every numeric field after the seconds
has the same width on every line. -/
theorem render_event_trailing_value_width :
    send_events linux_max demo_init_state.d failing_sink (replay failing_draws) second_clock 0
        = some failing_send_state ∧
      trace_line.event 11 0 3 7 37 ∈ failing_send_state.out ∧
      trace_line.event 11 0 3 7 5 ∈ failing_send_state.out ∧
      render some_type_name some_code_name (trace_line.event 11 0 3 7 37)
        = "E: 11.000000 0003 0007 0037    # EV_ABS / ABS_RUDDER           37\n" ∧
      render some_type_name some_code_name (trace_line.event 11 0 3 7 5)
        = "E: 11.000000 0003 0007 0005    # EV_ABS / ABS_RUDDER           5\n" ∧
      (fmt_d 37).length = 2 ∧ (fmt_d 5).length = 1 ∧
      ¬ ((fmt_d 37).length = (fmt_d 5).length) := by
  refine ⟨rfl, by decide, by decide, by decide, by decide, by decide, by decide, by decide⟩

/-- C12, amended: for every event `send_events` emits (type at most EV_MAX,
code at most the type's maximum, a 16-bit number, value in [0, 50),
microseconds below 1000000) the trace line is `E: `, the seconds, a dot, the
microseconds as exactly 6 zero-padded digits, the type and the code as exactly
4 zero-padded hexadecimal digits each, the value as exactly 4 zero-padded
decimal digits, four spaces, `# `, the type name, ` / `, the code name
left-justified in at least 20 columns, a space and the value. The four fields
between the seconds and `#` have the same width on every line; the value at
the end is not padded and takes one column below 10 and two from 10 on. -/
theorem render_event_line_format (type_name : Nat → Option String)
    (code_name : Nat → Nat → Option String) (get_max : Nat → Option Nat)
    (tp : timespec) (e : input_event) (max : Nat)
    (htable : ∀ type m, get_max type = some m → m ≤ 0xffff)
    (htype : e.type ≤ EV_MAX) (hmax : get_max e.type = some max) (hcode : e.code ≤ max)
    (hvalue : 0 ≤ e.value ∧ e.value < 50) (husec : tp.tv_nsec / 1000 < 1000000) :
    render type_name code_name (event_line tp e)
        = "E: " ++ Nat.repr tp.tv_sec ++ "."
          ++ pad_left '0' 6 (Nat.repr (tp.tv_nsec / 1000)) ++ " "
          ++ pad_left '0' 4 (String.mk (Nat.toDigits 16 e.type)) ++ " "
          ++ pad_left '0' 4 (String.mk (Nat.toDigits 16 e.code)) ++ " "
          ++ pad_left '0' 4 (Nat.repr e.value.natAbs) ++ "    " ++ "# "
          ++ fmt_s (type_name e.type) ++ " / "
          ++ (fmt_s (code_name e.type e.code)
            ++ String.mk (List.replicate (20 - (fmt_s (code_name e.type e.code)).length) ' '))
          ++ " " ++ Nat.repr e.value.natAbs ++ "\n" ∧
      (pad_left '0' 6 (Nat.repr (tp.tv_nsec / 1000))).length = 6 ∧
      (pad_left '0' 4 (String.mk (Nat.toDigits 16 e.type))).length = 4 ∧
      (pad_left '0' 4 (String.mk (Nat.toDigits 16 e.code))).length = 4 ∧
      (pad_left '0' 4 (Nat.repr e.value.natAbs)).length = 4 ∧
      20 ≤ (fmt_s (code_name e.type e.code)
        ++ String.mk (List.replicate (20 - (fmt_s (code_name e.type e.code)).length) ' ')).length ∧
      (Nat.repr e.value.natAbs).length = (if e.value < 10 then 1 else 2) := by
  have hc16 : e.code ≤ 0xffff := Nat.le_trans hcode (htable _ _ hmax)
  have ht16 : e.type ≤ 0xffff := Nat.le_trans htype (by decide)
  refine ⟨?_, fmt_06lu_length _ husec, fmt_04x_length _ ht16, fmt_04x_length _ hc16, ?_, ?_, ?_⟩
  · simp only [render, event_line, fmt_lu, fmt_06lu, fmt_04x, fmt_left20,
      fmt_04d_eq e.value hvalue.1, fmt_d_eq e.value hvalue.1]
  · have := fmt_04d_length e.value hvalue.1 hvalue.2
    rw [fmt_04d_eq e.value hvalue.1] at this
    exact this
  · rw [String.length_append, String.length_mk (List.replicate _ _), List.length_replicate]
    omega
  · rw [repr_small_length e.value.natAbs (by omega)]
    by_cases h10 : e.value < 10
    · rw [if_pos h10, if_pos (by omega)]
    · rw [if_neg h10, if_neg (by omega)]

theorem render_event_line_format_witness :
    (∀ type m, linux_max type = some m → m ≤ 0xffff) ∧ (3 : Nat) ≤ EV_MAX ∧
      linux_max 3 = some 63 ∧ (7 : Nat) ≤ 63 ∧ ((0 : Int) ≤ 37 ∧ (37 : Int) < 50) ∧
      (second_clock 1).tv_nsec / 1000 < 1000000 ∧
      render some_type_name some_code_name
          (event_line (second_clock 1) { type := 3, code := 7, value := 37 })
        = "E: " ++ Nat.repr (second_clock 1).tv_sec ++ "."
          ++ pad_left '0' 6 (Nat.repr ((second_clock 1).tv_nsec / 1000)) ++ " "
          ++ pad_left '0' 4 (String.mk (Nat.toDigits 16 3)) ++ " "
          ++ pad_left '0' 4 (String.mk (Nat.toDigits 16 7)) ++ " "
          ++ pad_left '0' 4 (Nat.repr (37 : Int).natAbs) ++ "    " ++ "# "
          ++ fmt_s (some_type_name 3) ++ " / "
          ++ (fmt_s (some_code_name 3 7)
            ++ String.mk (List.replicate (20 - (fmt_s (some_code_name 3 7)).length) ' '))
          ++ " " ++ Nat.repr (37 : Int).natAbs ++ "\n" ∧
      (pad_left '0' 6 (Nat.repr ((second_clock 1).tv_nsec / 1000))).length = 6 ∧
      (pad_left '0' 4 (String.mk (Nat.toDigits 16 3))).length = 4 ∧
      (pad_left '0' 4 (String.mk (Nat.toDigits 16 7))).length = 4 ∧
      (pad_left '0' 4 (Nat.repr (37 : Int).natAbs)).length = 4 ∧
      20 ≤ (fmt_s (some_code_name 3 7)
        ++ String.mk (List.replicate (20 - (fmt_s (some_code_name 3 7)).length) ' ')).length ∧
      (Nat.repr (37 : Int).natAbs).length = (if (37 : Int) < 10 then 1 else 2) :=
  ⟨linux_max_le, by decide, by decide, by decide, by decide, by decide,
    render_event_line_format some_type_name some_code_name linux_max (second_clock 1)
      { type := 3, code := 7, value := 37 } 63 linux_max_le (by decide) (by decide) (by decide)
      (by decide) (by decide)⟩

/-- C13: the event trace format is round-trippable. For every event of the
emitted domain, parsing the fields before `#` of its trace line gives back the
tuple (seconds, microseconds, type, code, value); hence two events of the
domain with equal trace lines have equal tuples. -/
theorem render_event_line_round_trip (type_name : Nat → Option String)
    (code_name : Nat → Nat → Option String) (get_max : Nat → Option Nat)
    (tp tp' : timespec) (e e' : input_event) (max max' : Nat)
    (htable : ∀ type m, get_max type = some m → m ≤ 0xffff)
    (htype : e.type ≤ EV_MAX) (hmax : get_max e.type = some max) (hcode : e.code ≤ max)
    (hvalue : 0 ≤ e.value ∧ e.value < 50) (husec : tp.tv_nsec / 1000 < 1000000)
    (htype' : e'.type ≤ EV_MAX) (hmax' : get_max e'.type = some max') (hcode' : e'.code ≤ max')
    (hvalue' : 0 ≤ e'.value ∧ e'.value < 50) (husec' : tp'.tv_nsec / 1000 < 1000000) :
    parse_event_line (render type_name code_name (event_line tp e))
        = (tp.tv_sec, tp.tv_nsec / 1000, e.type, e.code, e.value) ∧
      (render type_name code_name (event_line tp e)
          = render type_name code_name (event_line tp' e') →
        (tp.tv_sec, tp.tv_nsec / 1000, e.type, e.code, e.value)
          = (tp'.tv_sec, tp'.tv_nsec / 1000, e'.type, e'.code, e'.value)) := by
  have h1 := parse_render_event type_name code_name tp.tv_sec (tp.tv_nsec / 1000) e.type e.code
    e.value husec (Nat.le_trans htype (by decide)) (Nat.le_trans hcode (htable _ _ hmax))
    hvalue.1 hvalue.2
  have h2 := parse_render_event type_name code_name tp'.tv_sec (tp'.tv_nsec / 1000) e'.type
    e'.code e'.value husec' (Nat.le_trans htype' (by decide))
    (Nat.le_trans hcode' (htable _ _ hmax')) hvalue'.1 hvalue'.2
  refine ⟨h1, ?_⟩
  intro heq
  have h1' : parse_event_line (render type_name code_name (event_line tp e)) = _ := h1
  have h2' : parse_event_line (render type_name code_name (event_line tp' e')) = _ := h2
  rw [← h1', ← h2', heq]

theorem render_event_line_round_trip_witness :
    (∀ type m, linux_max type = some m → m ≤ 0xffff) ∧
      ((3 : Nat) ≤ EV_MAX ∧ linux_max 3 = some 63 ∧ (7 : Nat) ≤ 63 ∧
        ((0 : Int) ≤ 37 ∧ (37 : Int) < 50) ∧ (second_clock 1).tv_nsec / 1000 < 1000000) ∧
      parse_event_line (render some_type_name some_code_name
          (event_line (second_clock 1) { type := 3, code := 7, value := 37 }))
        = ((second_clock 1).tv_sec, (second_clock 1).tv_nsec / 1000, 3, 7, 37) ∧
      (render some_type_name some_code_name
            (event_line (second_clock 1) { type := 3, code := 7, value := 37 })
          = render some_type_name some_code_name
            (event_line (second_clock 1) { type := 3, code := 7, value := 37 }) →
        ((second_clock 1).tv_sec, (second_clock 1).tv_nsec / 1000, 3, 7, (37 : Int))
          = ((second_clock 1).tv_sec, (second_clock 1).tv_nsec / 1000, 3, 7, (37 : Int))) :=
  ⟨linux_max_le, ⟨by decide, by decide, by decide, by decide, by decide⟩,
    render_event_line_round_trip some_type_name some_code_name linux_max (second_clock 1)
      (second_clock 1) { type := 3, code := 7, value := 37 } { type := 3, code := 7, value := 37 }
      63 63 linux_max_le (by decide) (by decide) (by decide) (by decide) (by decide)
      (by decide) (by decide) (by decide) (by decide) (by decide)⟩

end FuzzyDevice
